import Mathlib

/-!
Verification development for the session-process supervisor of the
`claudecodeui` server (`src/server/claude-cli.ts`, `src/server/claude-sdk.ts`).

The TypeScript source is shallowly embedded: strings are `List Char`,
`JSON.parse` is modelled by an executable JSON parser (`jsonParse`), the two
process-wide session `Map`s are association lists with JS `Map` semantics
(`mapGet`/`mapSet`/`mapDel`), and the event-driven handlers (`stdout` data,
`stderr` data, `close`, `error`, and the SDK `for await` loop) become pure
state-transition functions producing the list of envelopes written to the
WebSocket, the diagnostics written to the console, and the imperative actions
(process kills, abort-controller aborts, registry mutations) in order.
-/

/-- Convert a Lean string literal to the `List Char` representation used
throughout the development. -/
def lc (s : String) : List Char := s.toList

/-- Whitespace recognized by JavaScript `String.prototype.trim` (ECMAScript
WhiteSpace plus LineTerminator code points). -/
def isTrimWs (c : Char) : Bool :=
  c = ' ' || c = '\t' || c = '\n' || c = '\r' ||
  c.toNat = 11 || c.toNat = 12 || c.toNat = 0xa0 || c.toNat = 0x1680 ||
  (0x2000 ≤ c.toNat && c.toNat ≤ 0x200a) || c.toNat = 0x2028 || c.toNat = 0x2029 ||
  c.toNat = 0x202f || c.toNat = 0x205f || c.toNat = 0x3000 || c.toNat = 0xfeff

/-- JavaScript `String.prototype.trim`: strip leading and trailing whitespace. -/
def jsTrim (cs : List Char) : List Char :=
  ((cs.dropWhile isTrimWs).reverse.dropWhile isTrimWs).reverse

/-- JavaScript `str.split(sep)` for a single-character separator.  Always
returns at least one (possibly empty) fragment; a trailing separator yields a
trailing empty fragment, exactly as in JS. -/
def splitOnCh (sep : Char) : List Char → List (List Char)
  | [] => [[]]
  | c :: cs =>
    if c = sep then [] :: splitOnCh sep cs
    else
      match splitOnCh sep cs with
      | [] => [[c]]
      | l :: ls => (c :: l) :: ls

/-- JavaScript `str.split('\n')` as used by the stdout frame decoder. -/
def splitNl : List Char → List (List Char) := splitOnCh '\n'

/-- JavaScript `String.prototype.includes`: substring test. -/
def containsSub (pat s : List Char) : Bool :=
  s.tails.any (fun t => pat.isPrefixOf t)

/-!
JSON values as produced by `JSON.parse`.  Numbers keep their lexeme parts
(sign, integer digits, fraction digits, exponent part) so that parsing stays
purely syntactic; object fields keep source order (lookups take the last
occurrence of a key, as `JSON.parse` does).
-/
mutual
inductive JsonVal where
  | null
  | boolean (b : Bool)
  | num (neg : Bool) (ip fp ep : List Char)
  | str (s : List Char)
  | arr (elems : JsonArr)
  | obj (fields : JsonObj)
deriving DecidableEq
inductive JsonArr where
  | nil
  | cons (hd : JsonVal) (tl : JsonArr)
deriving DecidableEq
inductive JsonObj where
  | nil
  | cons (key : List Char) (val : JsonVal) (tl : JsonObj)
deriving DecidableEq
end

/-- JSON inter-token whitespace (space, tab, newline, carriage return). -/
def isJsonWs (c : Char) : Bool :=
  c = ' ' || c = '\t' || c = '\n' || c = '\r'

/-- Skip JSON inter-token whitespace. -/
def skipWs (cs : List Char) : List Char := cs.dropWhile isJsonWs

/-- Decimal digit test. -/
def isDigitCh (c : Char) : Bool := '0' ≤ c && c ≤ '9'

/-- Hexadecimal digit test. -/
def isHexDigit (c : Char) : Bool :=
  isDigitCh c || ('a' ≤ c && c ≤ 'f') || ('A' ≤ c && c ≤ 'F')

/-- Numeric value of a hexadecimal digit. -/
def hexVal (c : Char) : Nat :=
  if isDigitCh c then c.toNat - '0'.toNat
  else if 'a' ≤ c && c ≤ 'f' then c.toNat - 'a'.toNat + 10
  else c.toNat - 'A'.toNat + 10

/-- Single-character JSON string escapes. -/
def escChar (c : Char) : Option Char :=
  if c = '"' then some '"'
  else if c = '\\' then some '\\'
  else if c = '/' then some '/'
  else if c = 'b' then some (Char.ofNat 8)
  else if c = 'f' then some (Char.ofNat 12)
  else if c = 'n' then some '\n'
  else if c = 'r' then some '\r'
  else if c = 't' then some '\t'
  else none

/-- Parse the body of a JSON string (the opening quote already consumed);
returns the decoded characters and the remainder after the closing quote. -/
def parseStrBody : List Char → Option (List Char × List Char)
  | [] => none
  | c :: rest =>
    if c = '"' then some ([], rest)
    else if c = '\\' then
      match rest with
      | 'u' :: h1 :: h2 :: h3 :: h4 :: rest2 =>
        if isHexDigit h1 && isHexDigit h2 && isHexDigit h3 && isHexDigit h4 then
          match parseStrBody rest2 with
          | some (s, r) =>
            some (Char.ofNat (((hexVal h1 * 16 + hexVal h2) * 16 + hexVal h3) * 16 + hexVal h4) :: s, r)
          | none => none
        else none
      | e :: rest2 =>
        match escChar e with
        | some c2 =>
          match parseStrBody rest2 with
          | some (s, r) => some (c2 :: s, r)
          | none => none
        | none => none
      | [] => none
    else if c.toNat < 0x20 then none
    else
      match parseStrBody rest with
      | some (s, r) => some (c :: s, r)
      | none => none

/-- Parse the integer-digits part of a JSON number (a single `0`, or a nonzero
digit followed by digits). -/
def parseIntPart : List Char → Option (List Char × List Char)
  | [] => none
  | c :: rest =>
    if c = '0' then some (['0'], rest)
    else if isDigitCh c then some (c :: rest.takeWhile isDigitCh, rest.dropWhile isDigitCh)
    else none

/-- Parse the optional exponent part of a JSON number and build the value. -/
def parseExpPart (neg : Bool) (ip fp : List Char) (cs : List Char) :
    Option (JsonVal × List Char) :=
  match cs with
  | [] => some (.num neg ip fp [], [])
  | c :: r1 =>
    if c = 'e' || c = 'E' then
      match r1 with
      | [] => none
      | s :: r2 =>
        if s = '+' || s = '-' then
          let ds := r2.takeWhile isDigitCh
          if ds = [] then none else some (.num neg ip fp (s :: ds), r2.dropWhile isDigitCh)
        else
          let ds := r1.takeWhile isDigitCh
          if ds = [] then none else some (.num neg ip fp ds, r1.dropWhile isDigitCh)
    else some (.num neg ip fp [], cs)

/-- Parse a JSON number after an optional leading minus sign. -/
def parseNumberRest (neg : Bool) (cs : List Char) : Option (JsonVal × List Char) :=
  match parseIntPart cs with
  | none => none
  | some (ip, r1) =>
    match r1 with
    | '.' :: r2 =>
      let fp := r2.takeWhile isDigitCh
      if fp = [] then none else parseExpPart neg ip fp (r2.dropWhile isDigitCh)
    | _ => parseExpPart neg ip [] r1

/-!
Fuel-indexed recursive-descent parser for JSON values, mirroring the
grammar accepted by `JSON.parse`.  `parseVal` consumes leading whitespace and
one value; the element/field parsers handle the comma-separated interiors of
arrays and objects.
-/
mutual
def parseVal : Nat → List Char → Option (JsonVal × List Char)
  | 0, _ => none
  | f + 1, cs =>
    match skipWs cs with
    | [] => none
    | c :: rest =>
      if c = '"' then
        match parseStrBody rest with
        | some (s, r) => some (.str s, r)
        | none => none
      else if c = Char.ofNat 123 then
        match skipWs rest with
        | c2 :: r2 =>
          if c2 = Char.ofNat 125 then some (.obj .nil, r2)
          else
            match parseObjFields f rest with
            | some (fields, r) => some (.obj fields, r)
            | none => none
        | [] => none
      else if c = '[' then
        match skipWs rest with
        | ']' :: r2 => some (.arr .nil, r2)
        | _ =>
          match parseArrElems f rest with
          | some (elems, r) => some (.arr elems, r)
          | none => none
      else if c = 't' then
        if rest.take 3 = lc "rue" then some (.boolean true, rest.drop 3) else none
      else if c = 'f' then
        if rest.take 4 = lc "alse" then some (.boolean false, rest.drop 4) else none
      else if c = 'n' then
        if rest.take 3 = lc "ull" then some (.null, rest.drop 3) else none
      else if c = '-' then parseNumberRest true rest
      else if isDigitCh c then parseNumberRest false (c :: rest)
      else none

def parseArrElems : Nat → List Char → Option (JsonArr × List Char)
  | 0, _ => none
  | f + 1, cs =>
    match parseVal f cs with
    | none => none
    | some (v, r1) =>
      match skipWs r1 with
      | ',' :: r2 =>
        match parseArrElems f r2 with
        | some (tl, r3) => some (.cons v tl, r3)
        | none => none
      | ']' :: r2 => some (.cons v .nil, r2)
      | _ => none

def parseObjFields : Nat → List Char → Option (JsonObj × List Char)
  | 0, _ => none
  | f + 1, cs =>
    match skipWs cs with
    | '"' :: r1 =>
      match parseStrBody r1 with
      | some (k, r2) =>
        match skipWs r2 with
        | ':' :: r3 =>
          match parseVal f r3 with
          | some (v, r4) =>
            match skipWs r4 with
            | [] => none
            | c :: r5 =>
              if c = ',' then
                match parseObjFields f r5 with
                | some (tl, r6) => some (.cons k v tl, r6)
                | none => none
              else if c = Char.ofNat 125 then some (.cons k v .nil, r5)
              else none
          | none => none
        | _ => none
      | none => none
    | _ => none
end

/-- Model of `JSON.parse(line)`: parse one value and require that only
whitespace remains.  The fuel `2 * length + 2` dominates the recursion depth,
which consumes at most two fuel units per input character. -/
def jsonParse (cs : List Char) : Option JsonVal :=
  match parseVal (2 * cs.length + 2) cs with
  | some (v, r) => if skipWs r = [] then some v else none
  | none => none

/-- Lookup of a field on a parsed JSON value, as JS property access on the
result of `JSON.parse`: only objects have (string-keyed) fields, and for
duplicate keys the last occurrence wins. -/
def objLookupLast (k : List Char) : JsonObj → Option JsonVal
  | .nil => none
  | .cons key v tl =>
    match objLookupLast k tl with
    | some r => some r
    | none => if key = k then some v else none

/-- JavaScript property access `v.k` on a `JSON.parse` result (`undefined`
is `none`). -/
def jsGetField (v : JsonVal) (k : List Char) : Option JsonVal :=
  match v with
  | .obj fields => objLookupLast k fields
  | _ => none

/-- Zero test for a JSON number lexeme (`0`, `-0`, `0.00`, `0e9`, ...). -/
def jsNumIsZero (ip fp : List Char) : Bool := ip = ['0'] && fp.all (· = '0')

/-- JavaScript truthiness of a `JSON.parse` result: `null`, `false`, zero
numbers and the empty string are falsy; everything else is truthy. -/
def jsTruthy : JsonVal → Bool
  | .null => false
  | .boolean b => b
  | .num _ ip fp _ => !(jsNumIsZero ip fp)
  | .str s => !s.isEmpty
  | .arr _ => true
  | .obj _ => true

/-- Truthiness of a possibly-undefined value (`undefined` is falsy). -/
def jsOptTruthy : Option JsonVal → Bool
  | none => false
  | some v => jsTruthy v

/-- Truthiness of a JS string (only the empty string is falsy). -/
def jsStrTruthy (s : List Char) : Bool := !s.isEmpty

/-- Truthiness of a possibly-undefined JS string. -/
def jsStrOptTruthy : Option (List Char) → Bool
  | none => false
  | some s => jsStrTruthy s

/-!
Association-list model of a JavaScript `Map` (the two process-wide session
registries).  `mapSet` on an existing key replaces the stored value in place
and keeps the original key, `mapDel` removes the entry, and insertion order is
preserved — exactly the observable `Map` semantics under structural key
equality (SameValueZero on the string/primitive keys used here).
-/

/-- JS `Map.get`. -/
def mapGet {K V : Type} [DecidableEq K] (k : K) : List (K × V) → Option V
  | [] => none
  | e :: rest => if k = e.1 then some e.2 else mapGet k rest

/-- JS `Map.set`. -/
def mapSet {K V : Type} [DecidableEq K] (k : K) (v : V) : List (K × V) → List (K × V)
  | [] => [(k, v)]
  | e :: rest => if k = e.1 then (e.1, v) :: rest else e :: mapSet k v rest

/-- JS `Map.delete` (dropping the returned boolean). -/
def mapDel {K V : Type} [DecidableEq K] (k : K) : List (K × V) → List (K × V)
  | [] => []
  | e :: rest => if k = e.1 then rest else e :: mapDel k rest

/-- JS `Map.has`. -/
def mapHas {K V : Type} [DecidableEq K] (k : K) (m : List (K × V)) : Bool :=
  (mapGet k m).isSome

/-- One decoded unit of stdout output: a line that parsed as JSON, or a line
that did not (surfaced for diagnostics only). -/
inductive Msg where
  | parsed (v : JsonVal)
  | raw (line : List Char)
deriving DecidableEq

/-- Classification of one complete line by the stdout handler of
`spawnClaude` (claude-cli.ts:178-223): trim it, skip it when empty, otherwise
`JSON.parse` it, falling back to a raw-unparsed diagnostic. -/
def classifyLine (l : List Char) : Option Msg :=
  let t := jsTrim l
  if t = [] then none
  else
    match jsonParse t with
    | some v => some (.parsed v)
    | none => some (.raw t)

/-- The loop body of the stdout `data` handler over the split lines
(claude-cli.ts:178-223): every line but the last is classified; the last
line is trimmed and, when nonempty, kept as the new partial-line buffer. -/
def decodeLines : List (List Char) → List Msg × List Char
  | [] => ([], [])
  | [l] => ([], jsTrim l)
  | l :: l2 :: ls =>
    let (ms, b) := decodeLines (l2 :: ls)
    match classifyLine l with
    | some m => (m :: ms, b)
    | none => (ms, b)

/-- One `data` event of the stdout frame decoder (claude-cli.ts:170-224):
append the chunk to the held buffer, split on newlines, classify every
complete line and hold back the trimmed partial last line. -/
def decodeStep (buf chunk : List Char) : List Msg × List Char :=
  decodeLines (splitNl (buf ++ chunk))

/-- Deliver a sequence of stdout chunks to the frame decoder, collecting the
decoded messages in order together with the final partial-line buffer. -/
def decodeChunksFrom (buf : List Char) : List (List Char) → List Msg × List Char
  | [] => ([], buf)
  | c :: cs =>
    let (ms, b1) := decodeStep buf c
    let (ms2, b2) := decodeChunksFrom b1 cs
    (ms ++ ms2, b2)

/-- Payload of a `claude-response` envelope, in either delivery mode. -/
inductive RespData where
  | cliJson (v : JsonVal)
  | sdkSystemInit (sid : List Char)
  | sdkAssistant (sid : List Char)
  | sdkResult (subtype : List Char)
deriving DecidableEq

/-- One outbound message written to the WebSocket channel. -/
inductive Envelope where
  | sessionCreated (sid : JsonVal)
  | claudeResponse (data : RespData)
  | errorEnv (msg : List Char)
  | claudeComplete (exitCode : Option Int) (isNewSession : Bool)
deriving DecidableEq

/-- One diagnostic surfaced on the server console. -/
inductive Diag where
  | rawUnparsed (line : List Char)
deriving DecidableEq

/-- Imperative actions on processes, abort controllers and the two session
registries, recorded in execution order. -/
inductive Act where
  | killUnit (u : Nat)
  | abortUnit (u : Nat)
  | regDelCli (k : JsonVal)
  | regSetCli (k : JsonVal) (u : Nat)
  | regDelSdk (k : List Char)
  | regSetSdk (k : List Char) (u : Nat)
deriving DecidableEq

/-- The claim-relevant fields of `ClaudeSpawnOptions` (types/index.ts).  The
remaining options (`projectPath`, `cwd`, `resume`, `toolsSettings`,
`permissionMode`) only shape the spawned argument vector / SDK options record
and never influence the envelopes, registries or attachment handling that the
claims are about. -/
structure SpawnOpts where
  sessionId : Option (List Char)
  command : List Char
  images : List (List Char)
deriving DecidableEq

/-- Characters that JS regex `.` does not match (the data-URI payload must
avoid them for `^data:([^;]+);base64,(.+)$` to match). -/
def dotExcluded (c : Char) : Bool :=
  c = '\n' || c = '\r' || c.toNat = 0x2028 || c.toNat = 0x2029

/-- Model of `image.data.match(/^data:([^;]+);base64,(.+)$/)`
(claude-cli.ts:56, claude-sdk.ts:46): a nonempty semicolon-free mime type,
the literal `;base64,`, and a nonempty payload, spanning the whole string. -/
def dataUriMatch (s : List Char) : Option (List Char × List Char) :=
  if s.take 5 = lc "data:" then
    let rest := s.drop 5
    let mime := rest.takeWhile (fun c => c ≠ ';')
    let after := rest.dropWhile (fun c => c ≠ ';')
    if !mime.isEmpty && after.take 8 = lc ";base64," then
      let payload := after.drop 8
      if !payload.isEmpty && payload.all (fun c => !dotExcluded c) then some (mime, payload)
      else none
    else none
  else none

/-- File extension chosen for an attachment: `mimeType.split('/')[1] || 'png'`
(claude-cli.ts:63). -/
def extOf (mime : List Char) : List Char :=
  match (splitOnCh '/' mime).drop 1 with
  | [] => lc "png"
  | e :: _ => if e.isEmpty then lc "png" else e

/-- One attachment materialized into the Unit's sandbox directory: the file
written is `image_<idx>.<ext>` holding the decoded payload. -/
structure ImgFile where
  idx : Nat
  ext : List Char
  payload : List Char
deriving DecidableEq

/-- The attachment loop (claude-cli.ts:54-70, claude-sdk.ts:44-60) starting at
index `i`: a `data:` URI that does not match the pattern is skipped
(`continue`), every matching one is written to a file. -/
def processImagesFrom (i : Nat) : List (List Char) → List ImgFile
  | [] => []
  | d :: rest =>
    match dataUriMatch d with
    | none => processImagesFrom (i + 1) rest
    | some (mime, payload) => ⟨i, extOf mime, payload⟩ :: processImagesFrom (i + 1) rest

/-- Materialize a batch of attachments (`for (const [index, image] of
images.entries())`). -/
def processImages (imgs : List (List Char)) : List ImgFile := processImagesFrom 0 imgs

namespace ClaudeCli

/-- Registry entry of `activeClaudeProcesses` (claude-cli.ts:7-18): the child
process handle (a `Nat` token here) and the session id it was stored under.
The `ws` back reference is the single fixed channel and is left implicit. -/
structure ActiveProcess where
  unit : Nat
  sessionId : JsonVal
deriving DecidableEq

/-- Mutable state of one `spawnClaude` invocation: the `capturedSessionId`
and `sessionCreatedSent` locals, the partial-line `currentJsonBuffer`, and the
process-wide `activeClaudeProcesses` map. -/
structure CliSt where
  captured : Option JsonVal
  scSent : Bool
  buf : List Char
  reg : List (JsonVal × ActiveProcess)
deriving DecidableEq

/-- Handling of one decoded stdout message (claude-cli.ts:189-222): when the
parsed object has a truthy `session_id` and no session id has been captured
yet, capture it, register the process under it, and emit `session-created`
once; every parsed object is then relayed as a `claude-response` envelope.
Unparseable lines only produce a console diagnostic, no envelope. -/
def handleMsg (u : Nat) (st : CliSt) : Msg → CliSt × List Envelope × List Act
  | .raw _ => (st, [], [])
  | .parsed v =>
    match jsGetField v (lc "session_id") with
    | some sid =>
      if jsTruthy sid && !(jsOptTruthy st.captured) then
        let st1 := { st with captured := some sid, reg := mapSet sid ⟨u, sid⟩ st.reg }
        if st1.scSent then (st1, [.claudeResponse (.cliJson v)], [.regSetCli sid u])
        else ({ st1 with scSent := true },
              [.sessionCreated sid, .claudeResponse (.cliJson v)], [.regSetCli sid u])
      else (st, [.claudeResponse (.cliJson v)], [])
    | none => (st, [.claudeResponse (.cliJson v)], [])

/-- Fold `handleMsg` over the messages decoded from one chunk. -/
def handleMsgs (u : Nat) (st : CliSt) : List Msg → CliSt × List Envelope × List Act
  | [] => (st, [], [])
  | m :: ms =>
    let (st1, evs1, acts1) := handleMsg u st m
    let (st2, evs2, acts2) := handleMsgs u st1 ms
    (st2, evs1 ++ evs2, acts1 ++ acts2)

/-- The raw-unparsed console diagnostics produced while decoding a chunk. -/
def diagsOf (msgs : List Msg) : List Diag :=
  msgs.filterMap (fun m =>
    match m with
    | .raw l => some (.rawUnparsed l)
    | .parsed _ => none)

/-- One stdout `data` event (claude-cli.ts:170-224): frame-decode the chunk
against the held buffer, then run the per-message supervisor logic. -/
def onStdoutData (u : Nat) (st : CliSt) (chunk : List Char) :
    CliSt × List Envelope × List Diag × List Act :=
  let (msgs, buf1) := decodeStep st.buf chunk
  let (st1, evs, acts) := handleMsgs u { st with buf := buf1 } msgs
  (st1, evs, diagsOf msgs, acts)

/-- The canned installation hint sent when stderr output or a spawn error
looks like a missing `claude` binary. -/
def notFoundHint : List Char :=
  lc "Claude CLI not found. Please install it first: npm install -g @anthropic-ai/claude-cli"

/-- One stderr `data` event (claude-cli.ts:226-243): always relayed as an
`error` envelope, with the not-found hint substituted when recognized. -/
def onStderrData (msg : List Char) : List Envelope :=
  if containsSub (lc "not found") msg || containsSub (lc "command not found") msg then
    [.errorEnv notFoundHint]
  else [.errorEnv msg]

/-- The interleaved input events a running child process can produce. -/
inductive CliEvent where
  | stdoutData (chunk : List Char)
  | stderrData (msg : List Char)
deriving DecidableEq

/-- Process a sequence of stdout/stderr events in arrival order. -/
def procEvents (u : Nat) (st : CliSt) : List CliEvent → CliSt × List Envelope × List Diag × List Act
  | [] => (st, [], [], [])
  | ev :: evs =>
    let (st1, e1, d1, a1) :=
      match ev with
      | .stdoutData c => onStdoutData u st c
      | .stderrData m => (st, onStderrData m, ([] : List Diag), ([] : List Act))
    let (st2, e2, d2, a2) := procEvents u st1 evs
    (st2, e1 ++ e2, d1 ++ d2, a1 ++ a2)

/-- How the child process terminates: a `close` event with an exit code
(`null` when killed by a signal), or an `error` event because the spawn
failed (ENOENT or otherwise).  Node guarantees that the `close` event still
fires after a spawn `error` (for ENOENT with exit code -2), so the
`spawnErr` case also carries the exit code that the subsequent `close`
event reports. -/
inductive CliTerm where
  | closed (code : Option Int)
  | spawnErr (enoent : Bool) (msg : List Char) (code : Option Int)
deriving DecidableEq

/-- Everything observable about one `spawnClaude` run. -/
structure CliRunOut where
  envs : List Envelope
  diags : List Diag
  acts : List Act
  reg : List (JsonVal × ActiveProcess)
  files : List ImgFile
deriving DecidableEq

/-- Delete the registry entry for the captured id, guarded by truthiness,
as both terminal handlers do (claude-cli.ts:259-261, 288-290). -/
def delCaptured (captured : Option JsonVal) (reg : List (JsonVal × ActiveProcess)) :
    List (JsonVal × ActiveProcess) × List Act :=
  match captured with
  | some k => if jsTruthy k then (mapDel k reg, [Act.regDelCli k]) else (reg, [])
  | none => (reg, [])

/-- The start-of-run registry step of `spawnClaude` (claude-cli.ts:156-164):
when the caller-supplied session id is truthy and a process is already
registered under it, kill the existing process and deregister it.  The full
run (claude-cli.ts:20-313) then materializes the attachments, processes the
child's output events, and terminates through the `close` handler (which
always sends `claude-complete`); on a failed spawn the `error` handler fires
first (deregistering and sending an `error` envelope) and the guaranteed
`close` event then still sends the terminal `claude-complete`. -/
def killExisting (captured0 : Option JsonVal) (reg0 : List (JsonVal × ActiveProcess)) :
    List (JsonVal × ActiveProcess) × List Act :=
  match captured0 with
  | some k =>
    if jsTruthy k then
      match mapGet k reg0 with
      | some e => (mapDel k reg0, [Act.killUnit e.unit, Act.regDelCli k])
      | none => (reg0, [])
    else (reg0, [])
  | none => (reg0, [])

/-- One full `spawnClaude` run, assembled from the pieces above. -/
def spawnClaude (opts : SpawnOpts) (u : Nat) (reg0 : List (JsonVal × ActiveProcess))
    (evs : List CliEvent) (term : CliTerm) : CliRunOut :=
  let files := processImages opts.images
  let captured0 : Option JsonVal := opts.sessionId.map .str
  let pr := killExisting captured0 reg0
  let out := procEvents u ⟨captured0, false, [], pr.1⟩ evs
  let fin := delCaptured out.1.captured out.1.reg
  match term with
  | .closed code =>
    ⟨out.2.1 ++ [.claudeComplete code (!jsStrOptTruthy opts.sessionId && jsStrTruthy opts.command)],
     out.2.2.1, pr.2 ++ out.2.2.2 ++ fin.2, fin.1, files⟩
  | .spawnErr enoent msg code =>
    let fin2 := delCaptured out.1.captured fin.1
    ⟨(out.2.1 ++ [if enoent then Envelope.errorEnv notFoundHint else Envelope.errorEnv msg])
       ++ [.claudeComplete code (!jsStrOptTruthy opts.sessionId && jsStrTruthy opts.command)],
     out.2.2.1, pr.2 ++ out.2.2.2 ++ fin.2 ++ fin2.2, fin2.1, files⟩

/-- The exported `abortClaudeSession(sessionId)` (claude-cli.ts:315-324):
look the id up, and when a process is registered kill it with SIGTERM,
deregister it and return `true`; otherwise return `false`. -/
def abortClaudeSession (sessionId : List Char) (reg : List (JsonVal × ActiveProcess)) :
    Bool × List (JsonVal × ActiveProcess) × List Act :=
  match mapGet (JsonVal.str sessionId) reg with
  | some e =>
    (true, mapDel (JsonVal.str sessionId) reg, [.killUnit e.unit, .regDelCli (.str sessionId)])
  | none => (false, reg, [])

end ClaudeCli

namespace ClaudeSdk

/-- Registry entry of `activeSessions` (claude-sdk.ts:7-14): the SDK query
handle (a `Nat` token) and the session id it was stored under; the `ws` and
`abortController` references are left implicit (aborting is recorded as an
`Act.abortUnit` on the handle). -/
structure ActiveSession where
  unit : Nat
  sessionId : List Char
deriving DecidableEq

/-- Model of `generateSessionId()` (claude-sdk.ts:299-301).  The source
builds `temp-<Date.now()>-<random>`; two calls never collide.  That
generator is modelled by a counter threaded through the run, each call
consuming one counter value, so successive ids are distinct. -/
def generateSessionId (n : Nat) : List Char :=
  lc "temp-" ++ Nat.toDigits 10 n

/-- JS `sessionId || generateSessionId()`: the generator is invoked (and the
counter advanced) only when the supplied id is falsy. -/
def jsOrGen (o : Option (List Char)) (n : Nat) : List Char × Nat :=
  match o with
  | some s => if s.isEmpty then (generateSessionId n, n + 1) else (s, n)
  | none => (generateSessionId n, n + 1)

/-- Mutable state of one `startClaudeSession` invocation: `capturedSessionId`,
the id-generator counter, the `sessionCreatedSent` and `systemMessageSent`
flags, and the process-wide `activeSessions` map. -/
structure SdkSt where
  captured : List Char
  counter : Nat
  scSent : Bool
  sysSent : Bool
  reg : List (List Char × ActiveSession)
deriving DecidableEq

/-- The claim-relevant shape of one SDK stream message (the `message.type`
switch in claude-sdk.ts:144-234 only inspects `type`, `subtype` and
`session_id`; the assistant/result payloads are relayed opaquely). -/
inductive SDKMessage where
  | system (subtype : List Char) (session_id : List Char)
  | user (session_id : List Char)
  | assistant (session_id : List Char)
  | result (subtype : List Char)
deriving DecidableEq

/-- One iteration of the `for await` message loop (claude-sdk.ts:140-234).
On a `system`/`init` message: capture the reported session id, recompute
`oldSessionId` as `sessionId || generateSessionId()` — note this calls the
generator a second time — re-key the registry when the two differ, emit
`session-created` at most once, and relay the system info.  `user` messages
are skipped; `assistant` and `result` messages are relayed. -/
def handleMessage (opts : SpawnOpts) (u : Nat) (st : SdkSt) :
    SDKMessage → SdkSt × List Envelope × List Act
  | .system subtype sid =>
    if subtype = lc "init" then
      let (oldSessionId, n1) := jsOrGen opts.sessionId st.counter
      let (reg1, acts1) :=
        if oldSessionId ≠ sid then
          (mapSet sid ⟨u, sid⟩ (mapDel oldSessionId st.reg),
           [Act.regDelSdk oldSessionId, Act.regSetSdk sid u])
        else (st.reg, ([] : List Act))
      let st1 : SdkSt := { st with captured := sid, counter := n1, reg := reg1 }
      let (st2, evs) :=
        if !st1.scSent then
          ({ st1 with scSent := true }, [Envelope.sessionCreated (.str sid)])
        else (st1, [])
      ({ st2 with sysSent := true },
       evs ++ [.claudeResponse (.sdkSystemInit sid)], acts1)
    else (st, [], [])
  | .user _ => (st, [], [])
  | .assistant sid => (st, [.claudeResponse (.sdkAssistant sid)], [])
  | .result subtype => (st, [.claudeResponse (.sdkResult subtype)], [])

/-- Fold `handleMessage` over the SDK message stream. -/
def handleMessages (opts : SpawnOpts) (u : Nat) (st : SdkSt) :
    List SDKMessage → SdkSt × List Envelope × List Act
  | [] => (st, [], [])
  | m :: ms =>
    let (st1, evs1, acts1) := handleMessage opts u st m
    let (st2, evs2, acts2) := handleMessages opts u st1 ms
    (st2, evs1 ++ evs2, acts1 ++ acts2)

/-- How one `startClaudeSession` run ends: the stream finishes normally, the
inner catch fires mid-stream (an abort is logged silently, any other error is
relayed as an `error` envelope, and both still reach the terminal send), or
the outer catch fires because the query could not be started. -/
inductive SdkOutcome where
  | ok
  | innerError (isAbort : Bool) (msg : List Char)
  | launchError (msg : List Char)
deriving DecidableEq

/-- Everything observable about one `startClaudeSession` run. -/
structure SdkRunOut where
  envs : List Envelope
  acts : List Act
  reg : List (List Char × ActiveSession)
  counter : Nat
  files : List ImgFile
deriving DecidableEq

/-- The start-of-run registry step of `startClaudeSession`
(claude-sdk.ts:75-83): abort and deregister any session already registered
under the provisional id.  The full run (claude-sdk.ts:16-285) materializes
attachments, computes the provisional id (`sessionId || generateSessionId()`),
runs this step, registers the new query, relays the stream, and terminates.
Every outcome except a launch failure deletes the currently captured id and
sends exactly one `claude-complete`; the outer catch deletes the provisional
id and sends only an `error` envelope. -/
def abortExisting (captured0 : List Char) (reg0 : List (List Char × ActiveSession)) :
    List (List Char × ActiveSession) × List Act :=
  match mapGet captured0 reg0 with
  | some e => (mapDel captured0 reg0, [Act.abortUnit e.unit, Act.regDelSdk captured0])
  | none => (reg0, [])

/-- One full `startClaudeSession` run, assembled from the pieces above. -/
def startClaudeSession (opts : SpawnOpts) (u : Nat)
    (reg0 : List (List Char × ActiveSession)) (n0 : Nat)
    (msgs : List SDKMessage) (outcome : SdkOutcome) : SdkRunOut :=
  let files := processImages opts.images
  let g := jsOrGen opts.sessionId n0
  let pr := abortExisting g.1 reg0
  match outcome with
  | .launchError msg =>
    ⟨[.errorEnv msg], pr.2 ++ [Act.regDelSdk g.1], mapDel g.1 pr.1, g.2, files⟩
  | .ok =>
    let out := handleMessages opts u ⟨g.1, g.2, false, false, mapSet g.1 ⟨u, g.1⟩ pr.1⟩ msgs
    ⟨out.2.1 ++ [.claudeComplete (some 0) (!jsStrOptTruthy opts.sessionId && jsStrTruthy opts.command)],
     pr.2 ++ [Act.regSetSdk g.1 u] ++ out.2.2 ++ [Act.regDelSdk out.1.captured],
     mapDel out.1.captured out.1.reg, out.1.counter, files⟩
  | .innerError isAbort msg =>
    let out := handleMessages opts u ⟨g.1, g.2, false, false, mapSet g.1 ⟨u, g.1⟩ pr.1⟩ msgs
    ⟨(if isAbort then out.2.1 else out.2.1 ++ [.errorEnv msg])
       ++ [.claudeComplete (some 0) (!jsStrOptTruthy opts.sessionId && jsStrTruthy opts.command)],
     pr.2 ++ [Act.regSetSdk g.1 u] ++ out.2.2 ++ [Act.regDelSdk out.1.captured],
     mapDel out.1.captured out.1.reg, out.1.counter, files⟩

/-- The exported `abortClaudeSession(sessionId)` (claude-sdk.ts:287-296):
look the id up, and when a session is registered trigger its abort
controller, deregister it and return `true`; otherwise return `false`. -/
def abortClaudeSession (sessionId : List Char) (reg : List (List Char × ActiveSession)) :
    Bool × List (List Char × ActiveSession) × List Act :=
  match mapGet sessionId reg with
  | some e => (true, mapDel sessionId reg, [.abortUnit e.unit, .regDelSdk sessionId])
  | none => (false, reg, [])

end ClaudeSdk

/-- Test for a `session-created` envelope. -/
def isSessionCreated : Envelope → Bool
  | .sessionCreated _ => true
  | _ => false

/-- Test for a terminal `claude-complete` envelope. -/
def isComplete : Envelope → Bool
  | .claudeComplete _ _ => true
  | _ => false

/-- Test for a `claude-response` envelope. -/
def isResponse : Envelope → Bool
  | .claudeResponse _ => true
  | _ => false

/-- Number of `session-created` envelopes in an output sequence. -/
def countSC (evs : List Envelope) : Nat := evs.countP isSessionCreated

/-- Number of terminal `claude-complete` envelopes in an output sequence. -/
def countComplete (evs : List Envelope) : Nat := evs.countP isComplete

/-- Test for an SDK `user` message (the echo of the caller's prompt). -/
def ClaudeSdk.isUserMsg : ClaudeSdk.SDKMessage → Bool
  | .user _ => true
  | _ => false

/-- Test for an SDK `system`/`init` message. -/
def ClaudeSdk.isInitMsg : ClaudeSdk.SDKMessage → Bool
  | .system subtype _ => subtype = lc "init"
  | _ => false

/-- Test whether one decoded stdout message triggers the CLI identity
capture: it parsed, and its `session_id` field is present and truthy. -/
def capturesMsg : Msg → Bool
  | .raw _ => false
  | .parsed v =>
    match jsGetField v (lc "session_id") with
    | some sid => jsTruthy sid
    | none => false

/-- The stdout chunks of an event sequence, in order. -/
def stdoutChunks (evs : List ClaudeCli.CliEvent) : List (List Char) :=
  evs.filterMap (fun ev =>
    match ev with
    | .stdoutData c => some c
    | .stderrData _ => none)

/-- Number of raw-unparsed messages in a decoded sequence. -/
def countRawMsgs (msgs : List Msg) : Nat :=
  msgs.countP (fun m =>
    match m with
    | .raw _ => true
    | .parsed _ => false)

/-- The stream property under which chunk-boundary invariance of the frame
decoder is provable: every trimmable whitespace character in the stream is a
newline, so trimming the held-back partial line cannot alter it. -/
def NoWsExceptNl (s : List Char) : Prop := ∀ c ∈ s, isTrimWs c → c = '\n'

/-- Glue for concatenation under single-character splitting: the last
fragment of the left split merges with the first fragment of the right
split. -/
def glueSplit (xs ys : List (List Char)) : List (List Char) :=
  xs.dropLast ++
    match ys with
    | [] => [xs.getLastD []]
    | y :: ys2 => (xs.getLastD [] ++ y) :: ys2

/-- Keys of a registry are pairwise distinct — the invariant every JS `Map`
enjoys by construction. -/
def NodupKeys {K V : Type} (m : List (K × V)) : Prop := (m.map Prod.fst).Nodup

theorem mapGet_eq_none_of_not_mem {K V : Type} [DecidableEq K] (k : K)
    (m : List (K × V)) (h : k ∉ m.map Prod.fst) : mapGet k m = none := by
  induction m with
  | nil => rfl
  | cons e rest ih =>
    simp only [List.map_cons, List.mem_cons, not_or] at h
    simp only [mapGet, if_neg h.1]
    exact ih h.2

theorem mapDel_sublist {K V : Type} [DecidableEq K] (k : K) (m : List (K × V)) :
    (mapDel k m).Sublist m := by
  induction m with
  | nil => simp [mapDel]
  | cons e rest ih =>
    by_cases h : k = e.1
    · simp only [mapDel, if_pos h]
      exact (List.sublist_cons_self e rest)
    · simp only [mapDel, if_neg h]
      exact ih.cons₂ e

theorem nodupKeys_mapDel {K V : Type} [DecidableEq K] (k : K) (m : List (K × V))
    (h : NodupKeys m) : NodupKeys (mapDel k m) :=
  ((mapDel_sublist k m).map Prod.fst).nodup h

theorem keys_mapSet_subset {K V : Type} [DecidableEq K] (k : K) (v : V) (m : List (K × V)) :
    (mapSet k v m).map Prod.fst ⊆ k :: m.map Prod.fst := by
  induction m with
  | nil => simp [mapSet]
  | cons e rest ih =>
    by_cases h : k = e.1
    · simp only [mapSet, if_pos h, List.map_cons]
      intro x hx
      rcases List.mem_cons.mp hx with hx | hx
      · simp [hx, h]
      · simp [hx]
    · simp only [mapSet, if_pos, if_neg h, List.map_cons]
      intro x hx
      rcases List.mem_cons.mp hx with hx | hx
      · simp [hx]
      · rcases List.mem_cons.mp (ih hx) with hx | hx
        · simp [hx]
        · simp [hx]

theorem nodupKeys_mapSet {K V : Type} [DecidableEq K] (k : K) (v : V) (m : List (K × V))
    (h : NodupKeys m) : NodupKeys (mapSet k v m) := by
  induction m with
  | nil => simp [mapSet, NodupKeys]
  | cons e rest ih =>
    simp only [NodupKeys, List.map_cons, List.nodup_cons] at h
    by_cases hk : k = e.1
    · simp only [mapSet, if_pos hk, NodupKeys, List.map_cons, List.nodup_cons]
      exact ⟨h.1, h.2⟩
    · have ih2 := ih h.2
      simp only [mapSet, if_neg hk, NodupKeys, List.map_cons, List.nodup_cons]
      refine ⟨fun hmem => ?_, ih2⟩
      rcases List.mem_cons.mp (keys_mapSet_subset k v rest hmem) with hx | hx
      · exact hk hx.symm
      · exact h.1 hx

theorem mapGet_mapDel_self {K V : Type} [DecidableEq K] (k : K) (m : List (K × V))
    (h : NodupKeys m) : mapGet k (mapDel k m) = none := by
  induction m with
  | nil => rfl
  | cons e rest ih =>
    simp only [NodupKeys, List.map_cons, List.nodup_cons] at h
    by_cases hk : k = e.1
    · simp only [mapDel, if_pos hk]
      exact mapGet_eq_none_of_not_mem k rest (hk ▸ h.1)
    · simp only [mapDel, if_neg hk, mapGet, if_neg hk]
      exact ih h.2

/-- C6: for every session id, `abortClaudeSession` in both modes returns
`false` without any state change or side effect when no live Unit is
registered under the id; otherwise it signals cancellation on the registered
Unit (SIGTERM kill in subprocess mode, abort-controller abort in SDK mode),
removes the registry entry — so a subsequent lookup misses — and returns
`true`. -/
theorem C6_abort_semantics :
    ∀ (regC : List (JsonVal × ClaudeCli.ActiveProcess))
      (regS : List (List Char × ClaudeSdk.ActiveSession)) (id : List Char),
    (mapGet (JsonVal.str id) regC = none →
       ClaudeCli.abortClaudeSession id regC = (false, regC, [])) ∧
    (∀ e, mapGet (JsonVal.str id) regC = some e → NodupKeys regC →
       ClaudeCli.abortClaudeSession id regC
           = (true, mapDel (JsonVal.str id) regC,
              [Act.killUnit e.unit, Act.regDelCli (JsonVal.str id)]) ∧
       mapGet (JsonVal.str id) (ClaudeCli.abortClaudeSession id regC).2.1 = none) ∧
    (mapGet id regS = none →
       ClaudeSdk.abortClaudeSession id regS = (false, regS, [])) ∧
    (∀ e, mapGet id regS = some e → NodupKeys regS →
       ClaudeSdk.abortClaudeSession id regS
           = (true, mapDel id regS, [Act.abortUnit e.unit, Act.regDelSdk id]) ∧
       mapGet id (ClaudeSdk.abortClaudeSession id regS).2.1 = none) := by
  intro regC regS id
  refine ⟨fun h => ?_, fun e h hnd => ?_, fun h => ?_, fun e h hnd => ?_⟩
  · simp [ClaudeCli.abortClaudeSession, h]
  · constructor
    · simp [ClaudeCli.abortClaudeSession, h]
    · simp only [ClaudeCli.abortClaudeSession, h]
      exact mapGet_mapDel_self _ _ hnd
  · simp [ClaudeSdk.abortClaudeSession, h]
  · constructor
    · simp [ClaudeSdk.abortClaudeSession, h]
    · simp only [ClaudeSdk.abortClaudeSession, h]
      exact mapGet_mapDel_self _ _ hnd

/-- Witness for C6 at a concrete registry holding session `"a"` with unit 5
(subprocess mode) and at the empty SDK registry. -/
theorem C6_abort_semantics_witness :
    ClaudeCli.abortClaudeSession (lc "a") [(JsonVal.str (lc "a"), ⟨5, JsonVal.str (lc "a")⟩)]
        = (true, mapDel (JsonVal.str (lc "a")) [(JsonVal.str (lc "a"), ⟨5, JsonVal.str (lc "a")⟩)],
           [Act.killUnit 5, Act.regDelCli (JsonVal.str (lc "a"))])
      ∧ mapGet (JsonVal.str (lc "a"))
          (ClaudeCli.abortClaudeSession (lc "a")
            [(JsonVal.str (lc "a"), ⟨5, JsonVal.str (lc "a")⟩)]).2.1 = none
      ∧ ClaudeSdk.abortClaudeSession (lc "a") [] = (false, [], []) :=
  ⟨((C6_abort_semantics [(JsonVal.str (lc "a"), ⟨5, JsonVal.str (lc "a")⟩)] [] (lc "a")).2.1
      ⟨5, JsonVal.str (lc "a")⟩ (by decide) (by simp [NodupKeys])).1,
   ((C6_abort_semantics [(JsonVal.str (lc "a"), ⟨5, JsonVal.str (lc "a")⟩)] [] (lc "a")).2.1
      ⟨5, JsonVal.str (lc "a")⟩ (by decide) (by simp [NodupKeys])).2,
   (C6_abort_semantics [(JsonVal.str (lc "a"), ⟨5, JsonVal.str (lc "a")⟩)] [] (lc "a")).2.2.1
      (by decide)⟩

/-- C5 (code bug): in the SDK supervisor, when no client-supplied session id
exists the re-keying step recomputes `oldSessionId` by calling
`generateSessionId()` a second time (claude-sdk.ts:152), so it deletes a
fresh never-registered id instead of the provisional one.  Concretely: a run
started without a session id, whose unit reports id `"real"`, terminates
normally yet leaves the provisional `temp-…` registry entry for its unit in
the registry forever. -/
theorem C5_stale_provisional_entry :
    (ClaudeSdk.startClaudeSession ⟨none, lc "hi", []⟩ 7 [] 0
        [ClaudeSdk.SDKMessage.system (lc "init") (lc "real")] ClaudeSdk.SdkOutcome.ok).reg
      = [(ClaudeSdk.generateSessionId 0, ⟨7, ClaudeSdk.generateSessionId 0⟩)] := by
  decide

theorem processImagesFrom_idx_ge (l : List (List Char)) : ∀ (i : Nat),
    ∀ f ∈ processImagesFrom i l, i ≤ f.idx := by
  induction l with
  | nil => intro i f hf; simp [processImagesFrom] at hf
  | cons x xs ih =>
    intro i f hf
    rw [processImagesFrom] at hf
    cases hm : dataUriMatch x with
    | none =>
      rw [hm] at hf
      exact Nat.le_of_succ_le (ih (i + 1) f hf)
    | some q =>
      rw [hm] at hf
      rcases List.mem_cons.mp hf with hf | hf
      · subst hf; exact Nat.le_refl i
      · exact Nat.le_of_succ_le (ih (i + 1) f hf)

theorem processImagesFrom_skip (l : List (List Char)) : ∀ (i k : Nat) (d : List Char),
    l.get? k = some d → dataUriMatch d = none →
    ∀ f ∈ processImagesFrom i l, f.idx ≠ i + k := by
  induction l with
  | nil => intro i k d h; simp at h
  | cons x xs ih =>
    intro i k d h hm f hf
    rw [processImagesFrom] at hf
    cases k with
    | zero =>
      simp only [List.get?] at h
      injection h with h
      subst h
      rw [hm] at hf
      have := processImagesFrom_idx_ge xs (i + 1) f hf
      omega
    | succ k' =>
      simp only [List.get?] at h
      cases hx : dataUriMatch x with
      | none =>
        rw [hx] at hf
        have := ih (i + 1) k' d h hm f hf
        omega
      | some q =>
        rw [hx] at hf
        rcases List.mem_cons.mp hf with hf | hf
        · subst hf; simp only []; omega
        · have := ih (i + 1) k' d h hm f hf
          omega

theorem processImagesFrom_keep (l : List (List Char)) : ∀ (i k : Nat) (d m p : List Char),
    l.get? k = some d → dataUriMatch d = some (m, p) →
    (⟨i + k, extOf m, p⟩ : ImgFile) ∈ processImagesFrom i l := by
  induction l with
  | nil => intro i k d m p h; simp at h
  | cons x xs ih =>
    intro i k d m p h hm
    rw [processImagesFrom]
    cases k with
    | zero =>
      simp only [List.get?] at h
      injection h with h
      subst h
      rw [hm]
      simp
    | succ k' =>
      simp only [List.get?] at h
      have hmem := ih (i + 1) k' d m p h hm
      have harith : i + 1 + k' = i + (k' + 1) := by omega
      rw [harith] at hmem
      cases hx : dataUriMatch x with
      | none => exact hmem
      | some q => exact List.mem_cons_of_mem _ hmem

theorem cli_handleMsg_no_complete (u : Nat) (st : ClaudeCli.CliSt) (m : Msg) :
    countComplete (ClaudeCli.handleMsg u st m).2.1 = 0 := by
  cases m with
  | raw l => rfl
  | parsed v =>
    simp only [ClaudeCli.handleMsg]
    cases jsGetField v (lc "session_id") with
    | none => rfl
    | some sid =>
      by_cases hc : (jsTruthy sid && !(jsOptTruthy st.captured)) = true
      · simp only [hc, if_true]
        by_cases hs : st.scSent <;> simp [hs, countComplete, isComplete]
      · simp [hc, countComplete, isComplete]

theorem cli_handleMsgs_no_complete (u : Nat) (msgs : List Msg) : ∀ st : ClaudeCli.CliSt,
    countComplete (ClaudeCli.handleMsgs u st msgs).2.1 = 0 := by
  induction msgs with
  | nil => intro st; rfl
  | cons m ms ih =>
    intro st
    have h1 := cli_handleMsg_no_complete u st m
    rcases hme : ClaudeCli.handleMsg u st m with ⟨st1, evs1, acts1⟩
    have h2 := ih st1
    rcases hms : ClaudeCli.handleMsgs u st1 ms with ⟨st2, evs2, acts2⟩
    rw [hme] at h1
    rw [hms] at h2
    simp only [countComplete] at h1 h2
    simp only [ClaudeCli.handleMsgs, hme, hms, countComplete, List.countP_append]
    omega

theorem cli_stderr_no_complete (m : List Char) :
    countComplete (ClaudeCli.onStderrData m) = 0 := by
  by_cases h : (containsSub (lc "not found") m || containsSub (lc "command not found") m) = true <;>
    simp [ClaudeCli.onStderrData, h, countComplete, isComplete]

theorem cli_procEvents_no_complete (u : Nat) (evs : List ClaudeCli.CliEvent) :
    ∀ st : ClaudeCli.CliSt, countComplete (ClaudeCli.procEvents u st evs).2.1 = 0 := by
  induction evs with
  | nil => intro st; rfl
  | cons ev evs ih =>
    intro st
    cases ev with
    | stdoutData c =>
      have h1 := cli_handleMsgs_no_complete u (decodeStep st.buf c).1
        { st with buf := (decodeStep st.buf c).2 }
      rcases hd : decodeStep st.buf c with ⟨msgs, buf1⟩
      rw [hd] at h1
      rcases hms : ClaudeCli.handleMsgs u { st with buf := buf1 } msgs with ⟨st1, evs1, acts1⟩
      rw [hms] at h1
      have h2 := ih st1
      rcases hpe : ClaudeCli.procEvents u st1 evs with ⟨st2, evs2, d2, a2⟩
      rw [hpe] at h2
      simp only [countComplete] at h1 h2
      simp only [ClaudeCli.procEvents, ClaudeCli.onStdoutData, hd, hms, hpe,
        countComplete, List.countP_append]
      omega
    | stderrData m =>
      have h1 := cli_stderr_no_complete m
      have h2 := ih st
      rcases hpe : ClaudeCli.procEvents u st evs with ⟨st2, evs2, d2, a2⟩
      rw [hpe] at h2
      simp only [countComplete] at h1 h2
      simp only [ClaudeCli.procEvents, hpe, countComplete, List.countP_append]
      omega

theorem sdk_handleMessage_no_complete (opts : SpawnOpts) (u : Nat) (st : ClaudeSdk.SdkSt)
    (m : ClaudeSdk.SDKMessage) :
    countComplete (ClaudeSdk.handleMessage opts u st m).2.1 = 0 := by
  cases m with
  | system subtype sid =>
    simp only [ClaudeSdk.handleMessage]
    by_cases hs : subtype = lc "init"
    · simp only [hs, if_pos rfl]
      by_cases hd : ((ClaudeSdk.jsOrGen opts.sessionId st.counter).1 ≠ sid) <;>
        by_cases hsc : st.scSent <;>
          simp [hd, hsc, countComplete, isComplete]
    · simp [hs, countComplete]
  | user sid => rfl
  | assistant sid => simp [ClaudeSdk.handleMessage, countComplete, isComplete]
  | result subtype => simp [ClaudeSdk.handleMessage, countComplete, isComplete]

theorem sdk_handleMessages_no_complete (opts : SpawnOpts) (u : Nat)
    (msgs : List ClaudeSdk.SDKMessage) : ∀ st : ClaudeSdk.SdkSt,
    countComplete (ClaudeSdk.handleMessages opts u st msgs).2.1 = 0 := by
  induction msgs with
  | nil => intro st; rfl
  | cons m ms ih =>
    intro st
    have h1 := sdk_handleMessage_no_complete opts u st m
    rcases hme : ClaudeSdk.handleMessage opts u st m with ⟨st1, evs1, acts1⟩
    have h2 := ih st1
    rcases hms : ClaudeSdk.handleMessages opts u st1 ms with ⟨st2, evs2, acts2⟩
    rw [hme] at h1
    rw [hms] at h2
    simp only [countComplete] at h1 h2
    simp only [ClaudeSdk.handleMessages, hme, hms, countComplete, List.countP_append]
    omega

theorem cli_closed_complete (opts : SpawnOpts) (u : Nat)
    (reg0 : List (JsonVal × ClaudeCli.ActiveProcess)) (evs : List ClaudeCli.CliEvent)
    (code : Option Int) :
    countComplete (ClaudeCli.spawnClaude opts u reg0 evs (.closed code)).envs = 1 ∧
    (ClaudeCli.spawnClaude opts u reg0 evs (.closed code)).envs.getLast?
      = some (.claudeComplete code (!jsStrOptTruthy opts.sessionId && jsStrTruthy opts.command)) := by
  have h := cli_procEvents_no_complete u evs
    ⟨opts.sessionId.map .str, false, [], (ClaudeCli.killExisting (opts.sessionId.map .str) reg0).1⟩
  simp only [countComplete] at h
  constructor
  · simp only [ClaudeCli.spawnClaude, countComplete, List.countP_append, h]
    simp [isComplete]
  · simp only [ClaudeCli.spawnClaude]
    exact List.getLast?_concat _

theorem cli_spawnErr_complete (opts : SpawnOpts) (u : Nat)
    (reg0 : List (JsonVal × ClaudeCli.ActiveProcess)) (evs : List ClaudeCli.CliEvent)
    (enoent : Bool) (msg : List Char) (code : Option Int) :
    countComplete (ClaudeCli.spawnClaude opts u reg0 evs (.spawnErr enoent msg code)).envs = 1 ∧
    (ClaudeCli.spawnClaude opts u reg0 evs (.spawnErr enoent msg code)).envs.getLast?
      = some (.claudeComplete code (!jsStrOptTruthy opts.sessionId && jsStrTruthy opts.command)) := by
  have h := cli_procEvents_no_complete u evs
    ⟨opts.sessionId.map .str, false, [], (ClaudeCli.killExisting (opts.sessionId.map .str) reg0).1⟩
  simp only [countComplete] at h
  constructor
  · simp only [ClaudeCli.spawnClaude, countComplete, List.countP_append, h]
    by_cases he : enoent = true <;> simp [he, isComplete]
  · simp only [ClaudeCli.spawnClaude]
    exact List.getLast?_concat _

theorem sdk_ok_complete (opts : SpawnOpts) (u : Nat)
    (reg0 : List (List Char × ClaudeSdk.ActiveSession)) (n0 : Nat)
    (msgs : List ClaudeSdk.SDKMessage) :
    countComplete (ClaudeSdk.startClaudeSession opts u reg0 n0 msgs .ok).envs = 1 ∧
    (ClaudeSdk.startClaudeSession opts u reg0 n0 msgs .ok).envs.getLast?
      = some (.claudeComplete (some 0) (!jsStrOptTruthy opts.sessionId && jsStrTruthy opts.command)) := by
  have h := sdk_handleMessages_no_complete opts u msgs
    ⟨(ClaudeSdk.jsOrGen opts.sessionId n0).1, (ClaudeSdk.jsOrGen opts.sessionId n0).2, false, false,
      mapSet (ClaudeSdk.jsOrGen opts.sessionId n0).1
        ⟨u, (ClaudeSdk.jsOrGen opts.sessionId n0).1⟩
        (ClaudeSdk.abortExisting (ClaudeSdk.jsOrGen opts.sessionId n0).1 reg0).1⟩
  simp only [countComplete] at h
  constructor
  · simp only [ClaudeSdk.startClaudeSession, countComplete, List.countP_append, h]
    simp [isComplete]
  · simp only [ClaudeSdk.startClaudeSession]
    exact List.getLast?_concat _

theorem sdk_inner_complete (opts : SpawnOpts) (u : Nat)
    (reg0 : List (List Char × ClaudeSdk.ActiveSession)) (n0 : Nat)
    (msgs : List ClaudeSdk.SDKMessage) (isAbort : Bool) (msg : List Char) :
    countComplete
        (ClaudeSdk.startClaudeSession opts u reg0 n0 msgs (.innerError isAbort msg)).envs = 1 ∧
    (ClaudeSdk.startClaudeSession opts u reg0 n0 msgs (.innerError isAbort msg)).envs.getLast?
      = some (.claudeComplete (some 0) (!jsStrOptTruthy opts.sessionId && jsStrTruthy opts.command)) := by
  have h := sdk_handleMessages_no_complete opts u msgs
    ⟨(ClaudeSdk.jsOrGen opts.sessionId n0).1, (ClaudeSdk.jsOrGen opts.sessionId n0).2, false, false,
      mapSet (ClaudeSdk.jsOrGen opts.sessionId n0).1
        ⟨u, (ClaudeSdk.jsOrGen opts.sessionId n0).1⟩
        (ClaudeSdk.abortExisting (ClaudeSdk.jsOrGen opts.sessionId n0).1 reg0).1⟩
  simp only [countComplete] at h
  constructor
  · by_cases ha : isAbort = true <;>
      simp [ClaudeSdk.startClaudeSession, countComplete, List.countP_append, h, ha, isComplete]
  · simp only [ClaudeSdk.startClaudeSession]
    exact List.getLast?_concat _

theorem sdk_launch_no_complete (opts : SpawnOpts) (u : Nat)
    (reg0 : List (List Char × ClaudeSdk.ActiveSession)) (n0 : Nat)
    (msgs : List ClaudeSdk.SDKMessage) (msg : List Char) :
    countComplete
      (ClaudeSdk.startClaudeSession opts u reg0 n0 msgs (.launchError msg)).envs = 0 := by
  simp [ClaudeSdk.startClaudeSession, countComplete, isComplete]

theorem cli_images_indep (sid : Option (List Char)) (cmd : List Char) (imgs : List (List Char))
    (u : Nat) (reg0 : List (JsonVal × ClaudeCli.ActiveProcess)) (evs : List ClaudeCli.CliEvent)
    (term : ClaudeCli.CliTerm) :
    (ClaudeCli.spawnClaude ⟨sid, cmd, imgs⟩ u reg0 evs term).envs
      = (ClaudeCli.spawnClaude ⟨sid, cmd, []⟩ u reg0 evs term).envs := by
  cases term <;> rfl

theorem sdk_handleMessages_images_indep (sid : Option (List Char)) (cmd : List Char)
    (imgs : List (List Char)) (u : Nat) (msgs : List ClaudeSdk.SDKMessage) :
    ∀ st : ClaudeSdk.SdkSt,
    ClaudeSdk.handleMessages ⟨sid, cmd, imgs⟩ u st msgs
      = ClaudeSdk.handleMessages ⟨sid, cmd, []⟩ u st msgs := by
  induction msgs with
  | nil => intro st; rfl
  | cons m ms ih =>
    intro st
    have hm : ClaudeSdk.handleMessage ⟨sid, cmd, imgs⟩ u st m
        = ClaudeSdk.handleMessage ⟨sid, cmd, []⟩ u st m := by
      cases m <;> rfl
    simp only [ClaudeSdk.handleMessages, hm, ih]

theorem sdk_images_indep (sid : Option (List Char)) (cmd : List Char) (imgs : List (List Char))
    (u : Nat) (reg0 : List (List Char × ClaudeSdk.ActiveSession)) (n0 : Nat)
    (msgs : List ClaudeSdk.SDKMessage) (outcome : ClaudeSdk.SdkOutcome) :
    (ClaudeSdk.startClaudeSession ⟨sid, cmd, imgs⟩ u reg0 n0 msgs outcome).envs
      = (ClaudeSdk.startClaudeSession ⟨sid, cmd, []⟩ u reg0 n0 msgs outcome).envs := by
  have hmsgs := sdk_handleMessages_images_indep sid cmd imgs u msgs
  cases outcome with
  | launchError m => rfl
  | ok => simp only [ClaudeSdk.startClaudeSession, hmsgs]
  | innerError a m => simp only [ClaudeSdk.startClaudeSession, hmsgs]

/-- C9: an attachment whose data does not match the `data:<mime>;base64,<payload>`
shape is skipped — no file carries its index — while every matching attachment
in the same batch is still materialized (as `image_<idx>.<ext>` with its
payload); and attachments never fail the session: in both modes the run's
envelopes are exactly those of the same run without attachments, and a run
that reaches its terminal handler still emits its single `claude-complete`. -/
theorem C9_attachment_skip_and_continue :
    ∀ (imgs : List (List Char)) (k : Nat) (d m p : List Char) (sid : Option (List Char))
      (cmd : List Char) (u : Nat) (reg0 : List (JsonVal × ClaudeCli.ActiveProcess))
      (evs : List ClaudeCli.CliEvent) (code : Option Int)
      (reg0s : List (List Char × ClaudeSdk.ActiveSession)) (n0 : Nat)
      (msgs : List ClaudeSdk.SDKMessage),
      (imgs.get? k = some d → dataUriMatch d = none →
         ∀ f ∈ processImages imgs, f.idx ≠ k)
      ∧ (imgs.get? k = some d → dataUriMatch d = some (m, p) →
         (⟨k, extOf m, p⟩ : ImgFile) ∈ processImages imgs)
      ∧ countComplete (ClaudeCli.spawnClaude ⟨sid, cmd, imgs⟩ u reg0 evs (.closed code)).envs = 1
      ∧ (ClaudeCli.spawnClaude ⟨sid, cmd, imgs⟩ u reg0 evs (.closed code)).envs
          = (ClaudeCli.spawnClaude ⟨sid, cmd, []⟩ u reg0 evs (.closed code)).envs
      ∧ countComplete (ClaudeSdk.startClaudeSession ⟨sid, cmd, imgs⟩ u reg0s n0 msgs .ok).envs = 1
      ∧ (ClaudeSdk.startClaudeSession ⟨sid, cmd, imgs⟩ u reg0s n0 msgs .ok).envs
          = (ClaudeSdk.startClaudeSession ⟨sid, cmd, []⟩ u reg0s n0 msgs .ok).envs := by
  intro imgs k d m p sid cmd u reg0 evs code reg0s n0 msgs
  refine ⟨fun h hm f hf => ?_, fun h hm => ?_, ?_, ?_, ?_, ?_⟩
  · have hk := processImagesFrom_skip imgs 0 k d h hm f hf
    simpa using hk
  · have hk := processImagesFrom_keep imgs 0 k d m p h hm
    simpa using hk
  · exact (cli_closed_complete ⟨sid, cmd, imgs⟩ u reg0 evs code).1
  · exact cli_images_indep sid cmd imgs u reg0 evs (.closed code)
  · exact (sdk_ok_complete ⟨sid, cmd, imgs⟩ u reg0s n0 msgs).1
  · exact sdk_images_indep sid cmd imgs u reg0s n0 msgs .ok

/-- Witness for C9 on the concrete batch `["nope", "data:image/png;base64,AAAA"]`:
the malformed first attachment produces no file while the well-formed second
one is materialized at its own index. -/
theorem C9_attachment_skip_and_continue_witness :
    (∀ f ∈ processImages [lc "nope", lc "data:image/png;base64,AAAA"], f.idx ≠ 0)
    ∧ (⟨1, extOf (lc "image/png"), lc "AAAA"⟩ : ImgFile)
        ∈ processImages [lc "nope", lc "data:image/png;base64,AAAA"] :=
  ⟨(C9_attachment_skip_and_continue [lc "nope", lc "data:image/png;base64,AAAA"] 0 (lc "nope")
      [] [] none [] 0 [] [] none [] 0 []).1 (by decide) (by decide),
   (C9_attachment_skip_and_continue [lc "nope", lc "data:image/png;base64,AAAA"] 1
      (lc "data:image/png;base64,AAAA") (lc "image/png") (lc "AAAA") none [] 0 [] [] none [] 0
      []).2.1 (by decide) (by decide)⟩

/-- C1 (counterexample to the claim as stated): on the SDK launch-failure
path (the outer catch of `startClaudeSession`, claude-sdk.ts:268-284) the
Unit emits only the `error` envelope — zero terminal `claude-complete`
envelopes are sent for that Unit. -/
theorem C1_launch_failure_counterexample :
    (ClaudeSdk.startClaudeSession ⟨none, lc "go", []⟩ 3 [] 0 []
          (ClaudeSdk.SdkOutcome.launchError (lc "boom"))).envs
        = [.errorEnv (lc "boom")]
      ∧ countComplete
          (ClaudeSdk.startClaudeSession ⟨none, lc "go", []⟩ 3 [] 0 []
            (ClaudeSdk.SdkOutcome.launchError (lc "boom"))).envs
        = 0 := by
  constructor
  · decide
  · decide

/-- C1 (amended): in subprocess mode, every termination path — normal exit,
non-zero exit, and launch failure, where Node still fires the `close` event
after the `error` event — sends exactly one `claude-complete` envelope and
it is the last envelope of the run.  In SDK mode the same holds for stream
completion, runtime error and abort; but on an SDK launch failure (the
outer catch) no `claude-complete` is sent — the Unit ends with an `error`
envelope only. -/
theorem C1_terminal_envelope_amended :
    ∀ (opts : SpawnOpts) (u : Nat) (reg0 : List (JsonVal × ClaudeCli.ActiveProcess))
      (evs : List ClaudeCli.CliEvent) (code : Option Int) (enoent : Bool) (emsg : List Char)
      (ecode : Option Int) (reg0s : List (List Char × ClaudeSdk.ActiveSession)) (n0 : Nat)
      (msgs : List ClaudeSdk.SDKMessage) (isAbort : Bool) (imsg lmsg : List Char),
      (countComplete (ClaudeCli.spawnClaude opts u reg0 evs (.closed code)).envs = 1
        ∧ (ClaudeCli.spawnClaude opts u reg0 evs (.closed code)).envs.getLast?
            = some (.claudeComplete code
                (!jsStrOptTruthy opts.sessionId && jsStrTruthy opts.command)))
      ∧ (countComplete
            (ClaudeCli.spawnClaude opts u reg0 evs (.spawnErr enoent emsg ecode)).envs = 1
        ∧ (ClaudeCli.spawnClaude opts u reg0 evs (.spawnErr enoent emsg ecode)).envs.getLast?
            = some (.claudeComplete ecode
                (!jsStrOptTruthy opts.sessionId && jsStrTruthy opts.command)))
      ∧ (countComplete (ClaudeSdk.startClaudeSession opts u reg0s n0 msgs .ok).envs = 1
        ∧ (ClaudeSdk.startClaudeSession opts u reg0s n0 msgs .ok).envs.getLast?
            = some (.claudeComplete (some 0)
                (!jsStrOptTruthy opts.sessionId && jsStrTruthy opts.command)))
      ∧ (countComplete
            (ClaudeSdk.startClaudeSession opts u reg0s n0 msgs (.innerError isAbort imsg)).envs = 1
        ∧ (ClaudeSdk.startClaudeSession opts u reg0s n0 msgs
              (.innerError isAbort imsg)).envs.getLast?
            = some (.claudeComplete (some 0)
                (!jsStrOptTruthy opts.sessionId && jsStrTruthy opts.command)))
      ∧ countComplete
          (ClaudeSdk.startClaudeSession opts u reg0s n0 msgs (.launchError lmsg)).envs = 0 := by
  intro opts u reg0 evs code enoent emsg ecode reg0s n0 msgs isAbort imsg lmsg
  exact ⟨cli_closed_complete opts u reg0 evs code,
    cli_spawnErr_complete opts u reg0 evs enoent emsg ecode,
    sdk_ok_complete opts u reg0s n0 msgs,
    sdk_inner_complete opts u reg0s n0 msgs isAbort imsg,
    sdk_launch_no_complete opts u reg0s n0 msgs lmsg⟩

theorem cli_handleMsgs_sc (u : Nat) (msgs : List Msg) : ∀ st : ClaudeCli.CliSt,
    (st.scSent = true → jsOptTruthy st.captured = true) →
    countSC (ClaudeCli.handleMsgs u st msgs).2.1
        = (if jsOptTruthy st.captured then 0 else if msgs.any capturesMsg then 1 else 0)
      ∧ ((ClaudeCli.handleMsgs u st msgs).1.scSent = true →
          jsOptTruthy (ClaudeCli.handleMsgs u st msgs).1.captured = true)
      ∧ jsOptTruthy (ClaudeCli.handleMsgs u st msgs).1.captured
          = (jsOptTruthy st.captured || msgs.any capturesMsg)
      ∧ (ClaudeCli.handleMsgs u st msgs).1.buf = st.buf := by
  induction msgs with
  | nil =>
    intro st hinv
    refine ⟨?_, hinv, by simp [ClaudeCli.handleMsgs], rfl⟩
    by_cases hc : jsOptTruthy st.captured <;> simp [ClaudeCli.handleMsgs, hc, countSC]
  | cons m ms ih =>
    intro st hinv
    cases m with
    | raw l =>
      have hh : ClaudeCli.handleMsg u st (.raw l) = (st, [], []) := rfl
      have := ih st hinv
      simp only [ClaudeCli.handleMsgs, hh, List.any_cons, capturesMsg, Bool.false_or,
        countSC, List.countP_append, List.countP_nil, List.nil_append] at this ⊢
      simpa using this
    | parsed v =>
      simp only [ClaudeCli.handleMsgs]
      cases hf : jsGetField v (lc "session_id") with
      | none =>
        have hh : ClaudeCli.handleMsg u st (.parsed v) = (st, [.claudeResponse (.cliJson v)], []) := by
          simp [ClaudeCli.handleMsg, hf]
        have hcap : capturesMsg (.parsed v) = false := by simp [capturesMsg, hf]
        have := ih st hinv
        simp only [hh, hcap, List.any_cons, Bool.false_or, countSC, List.countP_append] at this ⊢
        simp only [List.countP_cons, isSessionCreated, List.countP_nil] at *
        simpa using this
      | some sid =>
        by_cases ht : jsTruthy sid = true
        · by_cases hc : jsOptTruthy st.captured = true
          · have hh : ClaudeCli.handleMsg u st (.parsed v)
                = (st, [.claudeResponse (.cliJson v)], []) := by
              simp [ClaudeCli.handleMsg, hf, ht, hc]
            have hcap : capturesMsg (.parsed v) = true := by simp [capturesMsg, hf, ht]
            have := ih st hinv
            simp only [hh, hcap, List.any_cons, Bool.true_or, countSC, List.countP_append,
              List.countP_cons, isSessionCreated, List.countP_nil, hc] at this ⊢
            rcases this with ⟨h1, h2, h3, h4⟩
            refine ⟨by simpa [hc] using h1, h2, by simp [h3, hc], h4⟩
          · have hscf : st.scSent = false := by
              cases hs : st.scSent
              · rfl
              · exact absurd (hinv hs) hc
            have hh : ClaudeCli.handleMsg u st (.parsed v)
                = ({ st with
                      captured := some sid
                      reg := mapSet sid ⟨u, sid⟩ st.reg
                      scSent := true },
                   [.sessionCreated sid, .claudeResponse (.cliJson v)], [.regSetCli sid u]) := by
              simp only [ClaudeCli.handleMsg, hf, ht, hc]
              simp [hscf]
            have hcap : capturesMsg (.parsed v) = true := by simp [capturesMsg, hf, ht]
            set st1 : ClaudeCli.CliSt :=
              { st with captured := some sid, reg := mapSet sid ⟨u, sid⟩ st.reg, scSent := true }
              with hst1
            have hinv1 : st1.scSent = true → jsOptTruthy st1.captured = true := by
              intro _; simpa [hst1, jsOptTruthy] using ht
            have := ih st1 hinv1
            have hc1 : jsOptTruthy st1.captured = true := by simpa [hst1, jsOptTruthy] using ht
            simp only [hh, hcap, List.any_cons, Bool.true_or, countSC, List.countP_append,
              List.countP_cons, isSessionCreated, List.countP_nil, hc1] at this ⊢
            rcases this with ⟨h1, h2, h3, h4⟩
            refine ⟨?_, h2, by simp [h3, hc1, hc], by simpa [hst1] using h4⟩
            simp [hc, h1]
        · have hh : ClaudeCli.handleMsg u st (.parsed v)
              = (st, [.claudeResponse (.cliJson v)], []) := by
            simp [ClaudeCli.handleMsg, hf, ht]
          have hcap : capturesMsg (.parsed v) = false := by simp [capturesMsg, hf, ht]
          have := ih st hinv
          simp only [hh, hcap, List.any_cons, Bool.false_or, countSC, List.countP_append,
            List.countP_cons, isSessionCreated, List.countP_nil] at this ⊢
          simpa using this

theorem cli_stderr_no_sc (m : List Char) : countSC (ClaudeCli.onStderrData m) = 0 := by
  by_cases h : (containsSub (lc "not found") m || containsSub (lc "command not found") m) = true <;>
    simp [ClaudeCli.onStderrData, h, countSC, isSessionCreated]

theorem cli_procEvents_sc (u : Nat) (evs : List ClaudeCli.CliEvent) : ∀ st : ClaudeCli.CliSt,
    (st.scSent = true → jsOptTruthy st.captured = true) →
    countSC (ClaudeCli.procEvents u st evs).2.1
        = (if jsOptTruthy st.captured then 0
           else if (decodeChunksFrom st.buf (stdoutChunks evs)).1.any capturesMsg then 1 else 0)
      ∧ ((ClaudeCli.procEvents u st evs).1.scSent = true →
          jsOptTruthy (ClaudeCli.procEvents u st evs).1.captured = true)
      ∧ jsOptTruthy (ClaudeCli.procEvents u st evs).1.captured
          = (jsOptTruthy st.captured
             || (decodeChunksFrom st.buf (stdoutChunks evs)).1.any capturesMsg) := by
  induction evs with
  | nil =>
    intro st hinv
    refine ⟨?_, hinv, by simp [ClaudeCli.procEvents, decodeChunksFrom, stdoutChunks]⟩
    by_cases hc : jsOptTruthy st.captured <;>
      simp [ClaudeCli.procEvents, decodeChunksFrom, stdoutChunks, hc, countSC]
  | cons ev evs ih =>
    intro st hinv
    cases ev with
    | stderrData m =>
      have hsc0 := cli_stderr_no_sc m
      have hch : stdoutChunks (ClaudeCli.CliEvent.stderrData m :: evs) = stdoutChunks evs := by
        simp [stdoutChunks]
      have hrest := ih st hinv
      rcases hpe : ClaudeCli.procEvents u st evs with ⟨st2, e2, d2, a2⟩
      rw [hpe] at hrest
      simp only [countSC] at hsc0 hrest ⊢
      simp only [ClaudeCli.procEvents, hpe, hch, List.countP_append]
      exact ⟨by omega, hrest.2.1, hrest.2.2⟩
    | stdoutData c =>
      rcases hd : decodeStep st.buf c with ⟨msgs, buf1⟩
      have hmsgs := cli_handleMsgs_sc u msgs { st with buf := buf1 } (by simpa using hinv)
      rcases hms : ClaudeCli.handleMsgs u { st with buf := buf1 } msgs with ⟨st1, e1, a1⟩
      rw [hms] at hmsgs
      have hinv1 : st1.scSent = true → jsOptTruthy st1.captured = true := hmsgs.2.1
      have hrest := ih st1 hinv1
      rcases hpe : ClaudeCli.procEvents u st1 evs with ⟨st2, e2, d2, a2⟩
      rw [hpe] at hrest
      have hbuf : st1.buf = buf1 := by simpa using hmsgs.2.2.2
      have hch : stdoutChunks (ClaudeCli.CliEvent.stdoutData c :: evs) = c :: stdoutChunks evs := by
        simp [stdoutChunks]
      rcases hD : decodeChunksFrom buf1 (stdoutChunks evs) with ⟨ms2, b2⟩
      rw [hbuf, hD] at hrest
      have hcap1 : jsOptTruthy st1.captured = (jsOptTruthy st.captured || msgs.any capturesMsg) := by
        simpa using hmsgs.2.2.1
    -- unfold the chunk-sequence decode for the head chunk
      have hdec : decodeChunksFrom st.buf (c :: stdoutChunks evs) = (msgs ++ ms2, b2) := by
        simp only [decodeChunksFrom, hd, hD]
      have hcount1 : countSC e1
          = (if jsOptTruthy st.captured then 0 else if msgs.any capturesMsg then 1 else 0) := by
        simpa using hmsgs.1
      simp only [countSC] at hcount1 hrest ⊢
      simp only [ClaudeCli.procEvents, ClaudeCli.onStdoutData, hd, hms, hpe, hch, hdec,
        List.countP_append, List.any_append]
      refine ⟨?_, hrest.2.1, ?_⟩
      · rw [hcount1, hrest.1, hcap1]
        by_cases h1 : jsOptTruthy st.captured <;>
          by_cases h2 : msgs.any capturesMsg = true <;>
            by_cases h3 : ms2.any capturesMsg = true <;>
              simp [h1, h2, h3]
      · rw [hrest.2.2, hcap1]
        by_cases h1 : jsOptTruthy st.captured <;>
          by_cases h2 : msgs.any capturesMsg = true <;>
            by_cases h3 : ms2.any capturesMsg = true <;>
              simp [h1, h2, h3]

theorem sdk_handleMessage_sc_count (opts : SpawnOpts) (u : Nat) (st : ClaudeSdk.SdkSt)
    (m : ClaudeSdk.SDKMessage) :
    countSC (ClaudeSdk.handleMessage opts u st m).2.1
      = (if !st.scSent && ClaudeSdk.isInitMsg m then 1 else 0) := by
  cases m with
  | system subtype sid =>
    by_cases hs : subtype = lc "init"
    · by_cases hd : ((ClaudeSdk.jsOrGen opts.sessionId st.counter).1 ≠ sid) <;>
        by_cases hsc : st.scSent <;>
          simp [ClaudeSdk.handleMessage, ClaudeSdk.isInitMsg, ClaudeSdk.isUserMsg, hs, hd, hsc,
            countSC, isSessionCreated]
    · simp [ClaudeSdk.handleMessage, ClaudeSdk.isInitMsg, ClaudeSdk.isUserMsg, hs, countSC]
  | user sid => simp [ClaudeSdk.handleMessage, ClaudeSdk.isInitMsg, ClaudeSdk.isUserMsg, countSC]
  | assistant sid =>
    simp [ClaudeSdk.handleMessage, ClaudeSdk.isInitMsg, ClaudeSdk.isUserMsg, countSC,
      isSessionCreated]
  | result subtype =>
    simp [ClaudeSdk.handleMessage, ClaudeSdk.isInitMsg, ClaudeSdk.isUserMsg, countSC,
      isSessionCreated]

theorem sdk_handleMessage_scSent (opts : SpawnOpts) (u : Nat) (st : ClaudeSdk.SdkSt)
    (m : ClaudeSdk.SDKMessage) :
    (ClaudeSdk.handleMessage opts u st m).1.scSent = (st.scSent || ClaudeSdk.isInitMsg m) := by
  cases m with
  | system subtype sid =>
    by_cases hs : subtype = lc "init"
    · by_cases hd : ((ClaudeSdk.jsOrGen opts.sessionId st.counter).1 ≠ sid) <;>
        by_cases hsc : st.scSent <;>
          simp [ClaudeSdk.handleMessage, ClaudeSdk.isInitMsg, hs, hd, hsc]
    · simp [ClaudeSdk.handleMessage, ClaudeSdk.isInitMsg, hs]
  | user sid => simp [ClaudeSdk.handleMessage, ClaudeSdk.isInitMsg]
  | assistant sid => simp [ClaudeSdk.handleMessage, ClaudeSdk.isInitMsg]
  | result subtype => simp [ClaudeSdk.handleMessage, ClaudeSdk.isInitMsg]

theorem sdk_handleMessages_sc (opts : SpawnOpts) (u : Nat) (msgs : List ClaudeSdk.SDKMessage) :
    ∀ st : ClaudeSdk.SdkSt,
    countSC (ClaudeSdk.handleMessages opts u st msgs).2.1
      = (if st.scSent then 0 else if msgs.any ClaudeSdk.isInitMsg then 1 else 0) := by
  induction msgs with
  | nil =>
    intro st
    by_cases hsc : st.scSent <;> simp [ClaudeSdk.handleMessages, hsc, countSC]
  | cons m ms ih =>
    intro st
    have h1 := sdk_handleMessage_sc_count opts u st m
    have h2 := sdk_handleMessage_scSent opts u st m
    rcases hme : ClaudeSdk.handleMessage opts u st m with ⟨st1, e1, a1⟩
    rw [hme] at h1 h2
    have h3 := ih st1
    rcases hms : ClaudeSdk.handleMessages opts u st1 ms with ⟨st2, e2, a2⟩
    rw [hms] at h3
    simp only [countSC] at h1 h3 ⊢
    simp only [ClaudeSdk.handleMessages, hme, hms, List.countP_append, List.any_cons]
    simp only at h2
    rw [h1, h3, h2]
    by_cases hsc : st.scSent <;>
      by_cases hm : ClaudeSdk.isInitMsg m = true <;>
        by_cases hms2 : ms.any ClaudeSdk.isInitMsg = true <;>
          simp [hsc, hm, hms2]

theorem jsOptTruthy_map_str (o : Option (List Char)) :
    jsOptTruthy (o.map JsonVal.str) = jsStrOptTruthy o := by
  cases o <;> rfl

/-- C2 (counterexample to the claim as stated): a resumed Unit — client-
supplied session id `"abc"`, output stream carrying that session id — runs to
completion emitting zero `session-created` envelopes, not exactly one. -/
theorem C2_resume_no_session_created_counterexample :
    countSC (ClaudeCli.spawnClaude ⟨some (lc "abc"), lc "go", []⟩ 3 []
        [ClaudeCli.CliEvent.stdoutData (lc "\x7b\"session_id\":\"abc\"\x7d\n")]
        (ClaudeCli.CliTerm.closed (some 0))).envs ≠ 1 := by
  decide

/-- C2 (amended): a Unit emits at most one `session-created` envelope, and
never a second one.  In subprocess mode the count is exactly one iff no
truthy session id was supplied at start and some decoded stdout message
carries a truthy `session_id` (zero otherwise — in particular on resume).
In SDK mode the count is exactly one iff the stream contains a
`system`/`init` message, and zero on the launch-failure path. -/
theorem C2_session_created_amended :
    ∀ (opts : SpawnOpts) (u : Nat) (reg0 : List (JsonVal × ClaudeCli.ActiveProcess))
      (evs : List ClaudeCli.CliEvent) (term : ClaudeCli.CliTerm)
      (reg0s : List (List Char × ClaudeSdk.ActiveSession)) (n0 : Nat)
      (msgs : List ClaudeSdk.SDKMessage) (isAbort : Bool) (imsg lmsg : List Char),
      countSC (ClaudeCli.spawnClaude opts u reg0 evs term).envs
          = (if jsStrOptTruthy opts.sessionId then 0
             else if (decodeChunksFrom [] (stdoutChunks evs)).1.any capturesMsg then 1 else 0)
      ∧ countSC (ClaudeCli.spawnClaude opts u reg0 evs term).envs ≤ 1
      ∧ countSC (ClaudeSdk.startClaudeSession opts u reg0s n0 msgs .ok).envs
          = (if msgs.any ClaudeSdk.isInitMsg then 1 else 0)
      ∧ countSC (ClaudeSdk.startClaudeSession opts u reg0s n0 msgs (.innerError isAbort imsg)).envs
          = (if msgs.any ClaudeSdk.isInitMsg then 1 else 0)
      ∧ countSC (ClaudeSdk.startClaudeSession opts u reg0s n0 msgs (.launchError lmsg)).envs = 0
      ∧ countSC (ClaudeSdk.startClaudeSession opts u reg0s n0 msgs .ok).envs ≤ 1 := by
  intro opts u reg0 evs term reg0s n0 msgs isAbort imsg lmsg
  have hst := cli_procEvents_sc u evs
    ⟨opts.sessionId.map JsonVal.str, false, [],
      (ClaudeCli.killExisting (opts.sessionId.map JsonVal.str) reg0).1⟩
    (by simp)
  rcases hpe : ClaudeCli.procEvents u
      ⟨opts.sessionId.map JsonVal.str, false, [],
        (ClaudeCli.killExisting (opts.sessionId.map JsonVal.str) reg0).1⟩ evs
    with ⟨st1, e1, d1, a1⟩
  rw [hpe] at hst
  have he1 : countSC e1
      = (if jsStrOptTruthy opts.sessionId then 0
         else if (decodeChunksFrom [] (stdoutChunks evs)).1.any capturesMsg then 1 else 0) := by
    have h := hst.1
    simpa [jsOptTruthy_map_str] using h
  have hcli : countSC (ClaudeCli.spawnClaude opts u reg0 evs term).envs = countSC e1 := by
    cases term with
    | closed code =>
      simp only [ClaudeCli.spawnClaude, hpe, countSC, List.countP_append]
      simp [isSessionCreated]
    | spawnErr enoent m code =>
      simp only [ClaudeCli.spawnClaude, hpe, countSC, List.countP_append]
      by_cases he : enoent = true <;> simp [he, isSessionCreated]
  have hsdk := sdk_handleMessages_sc opts u msgs
    ⟨(ClaudeSdk.jsOrGen opts.sessionId n0).1, (ClaudeSdk.jsOrGen opts.sessionId n0).2, false, false,
      mapSet (ClaudeSdk.jsOrGen opts.sessionId n0).1 ⟨u, (ClaudeSdk.jsOrGen opts.sessionId n0).1⟩
        (ClaudeSdk.abortExisting (ClaudeSdk.jsOrGen opts.sessionId n0).1 reg0s).1⟩
  rcases hhm : ClaudeSdk.handleMessages opts u
      ⟨(ClaudeSdk.jsOrGen opts.sessionId n0).1, (ClaudeSdk.jsOrGen opts.sessionId n0).2, false,
        false,
        mapSet (ClaudeSdk.jsOrGen opts.sessionId n0).1 ⟨u, (ClaudeSdk.jsOrGen opts.sessionId n0).1⟩
          (ClaudeSdk.abortExisting (ClaudeSdk.jsOrGen opts.sessionId n0).1 reg0s).1⟩ msgs
    with ⟨st2, e2, a2⟩
  rw [hhm] at hsdk
  have he2 : countSC e2 = (if msgs.any ClaudeSdk.isInitMsg then 1 else 0) := by
    simpa using hsdk
  have hok : countSC (ClaudeSdk.startClaudeSession opts u reg0s n0 msgs .ok).envs = countSC e2 := by
    simp only [ClaudeSdk.startClaudeSession, hhm, countSC, List.countP_append]
    simp [isSessionCreated]
  have hinner : countSC
      (ClaudeSdk.startClaudeSession opts u reg0s n0 msgs (.innerError isAbort imsg)).envs
      = countSC e2 := by
    simp only [ClaudeSdk.startClaudeSession, hhm, countSC]
    by_cases ha : isAbort = true <;> simp [ha, List.countP_append, isSessionCreated]
  refine ⟨hcli.trans he1, ?_, hok.trans he2, hinner.trans he2, ?_, ?_⟩
  · rw [hcli.trans he1]
    by_cases h1 : jsStrOptTruthy opts.sessionId <;>
      by_cases h2 : (decodeChunksFrom [] (stdoutChunks evs)).1.any capturesMsg = true <;>
        simp [h1, h2]
  · simp [ClaudeSdk.startClaudeSession, countSC, isSessionCreated]
  · rw [hok.trans he2]
    by_cases h2 : msgs.any ClaudeSdk.isInitMsg = true <;> simp [h2]

theorem cli_handleMsg_nodup (u : Nat) (st : ClaudeCli.CliSt) (m : Msg)
    (h : NodupKeys st.reg) : NodupKeys (ClaudeCli.handleMsg u st m).1.reg := by
  cases m with
  | raw l => exact h
  | parsed v =>
    simp only [ClaudeCli.handleMsg]
    cases hf : jsGetField v (lc "session_id") with
    | none => exact h
    | some sid =>
      by_cases hc : (jsTruthy sid && !(jsOptTruthy st.captured)) = true
      · simp only [hc, if_true]
        by_cases hs : st.scSent <;> simp only [hs, if_true, if_false, ite_true, ite_false] <;>
          exact nodupKeys_mapSet _ _ _ h
      · simp only [hc, if_false]
        exact h

theorem cli_handleMsgs_nodup (u : Nat) (msgs : List Msg) : ∀ st : ClaudeCli.CliSt,
    NodupKeys st.reg → NodupKeys (ClaudeCli.handleMsgs u st msgs).1.reg := by
  induction msgs with
  | nil => intro st h; exact h
  | cons m ms ih =>
    intro st h
    have h1 := cli_handleMsg_nodup u st m h
    rcases hme : ClaudeCli.handleMsg u st m with ⟨st1, e1, a1⟩
    rw [hme] at h1
    have h2 := ih st1 h1
    rcases hms : ClaudeCli.handleMsgs u st1 ms with ⟨st2, e2, a2⟩
    rw [hms] at h2
    simp only [ClaudeCli.handleMsgs, hme, hms]
    exact h2

theorem cli_procEvents_nodup (u : Nat) (evs : List ClaudeCli.CliEvent) :
    ∀ st : ClaudeCli.CliSt,
    NodupKeys st.reg → NodupKeys (ClaudeCli.procEvents u st evs).1.reg := by
  induction evs with
  | nil => intro st h; exact h
  | cons ev evs ih =>
    intro st h
    cases ev with
    | stdoutData c =>
      rcases hd : decodeStep st.buf c with ⟨msgs, buf1⟩
      have h1 := cli_handleMsgs_nodup u msgs { st with buf := buf1 } h
      rcases hms : ClaudeCli.handleMsgs u { st with buf := buf1 } msgs with ⟨st1, e1, a1⟩
      rw [hms] at h1
      have h2 := ih st1 h1
      rcases hpe : ClaudeCli.procEvents u st1 evs with ⟨st2, e2, d2, a2⟩
      rw [hpe] at h2
      simp only [ClaudeCli.procEvents, ClaudeCli.onStdoutData, hd, hms, hpe]
      exact h2
    | stderrData m =>
      have h2 := ih st h
      rcases hpe : ClaudeCli.procEvents u st evs with ⟨st2, e2, d2, a2⟩
      rw [hpe] at h2
      simp only [ClaudeCli.procEvents, hpe]
      exact h2

theorem cli_killExisting_nodup (c : Option JsonVal) (reg0 : List (JsonVal × ClaudeCli.ActiveProcess))
    (h : NodupKeys reg0) : NodupKeys (ClaudeCli.killExisting c reg0).1 := by
  cases c with
  | none => exact h
  | some k =>
    simp only [ClaudeCli.killExisting]
    by_cases ht : jsTruthy k = true
    · simp only [ht, if_true]
      cases hg : mapGet k reg0 with
      | none => exact h
      | some e => exact nodupKeys_mapDel _ _ h
    · simp only [ht, if_false]
      exact h

theorem cli_delCaptured_nodup (c : Option JsonVal) (reg : List (JsonVal × ClaudeCli.ActiveProcess))
    (h : NodupKeys reg) : NodupKeys (ClaudeCli.delCaptured c reg).1 := by
  cases c with
  | none => exact h
  | some k =>
    simp only [ClaudeCli.delCaptured]
    by_cases ht : jsTruthy k = true
    · simp only [ht, if_true]
      exact nodupKeys_mapDel _ _ h
    · simp only [ht, if_false]
      exact h

theorem cli_spawnClaude_nodup (opts : SpawnOpts) (u : Nat)
    (reg0 : List (JsonVal × ClaudeCli.ActiveProcess)) (evs : List ClaudeCli.CliEvent)
    (term : ClaudeCli.CliTerm) (h : NodupKeys reg0) :
    NodupKeys (ClaudeCli.spawnClaude opts u reg0 evs term).reg := by
  have h1 := cli_killExisting_nodup (opts.sessionId.map JsonVal.str) reg0 h
  have h2 := cli_procEvents_nodup u evs
    ⟨opts.sessionId.map JsonVal.str, false, [],
      (ClaudeCli.killExisting (opts.sessionId.map JsonVal.str) reg0).1⟩ h1
  have h3 := cli_delCaptured_nodup
    (ClaudeCli.procEvents u
      ⟨opts.sessionId.map JsonVal.str, false, [],
        (ClaudeCli.killExisting (opts.sessionId.map JsonVal.str) reg0).1⟩ evs).1.captured
    (ClaudeCli.procEvents u
      ⟨opts.sessionId.map JsonVal.str, false, [],
        (ClaudeCli.killExisting (opts.sessionId.map JsonVal.str) reg0).1⟩ evs).1.reg h2
  cases term with
  | closed code => exact h3
  | spawnErr enoent m code => exact cli_delCaptured_nodup _ _ h3

theorem sdk_handleMessage_nodup (opts : SpawnOpts) (u : Nat) (st : ClaudeSdk.SdkSt)
    (m : ClaudeSdk.SDKMessage) (h : NodupKeys st.reg) :
    NodupKeys (ClaudeSdk.handleMessage opts u st m).1.reg := by
  cases m with
  | system subtype sid =>
    by_cases hs : subtype = lc "init"
    · by_cases hd : ((ClaudeSdk.jsOrGen opts.sessionId st.counter).1 ≠ sid) <;>
        by_cases hsc : st.scSent <;>
          simp [ClaudeSdk.handleMessage, hs, hd, hsc] <;>
          first
            | exact nodupKeys_mapSet _ _ _ (nodupKeys_mapDel _ _ h)
            | exact h
    · simp [ClaudeSdk.handleMessage, hs]
      exact h
  | user sid => exact h
  | assistant sid => exact h
  | result subtype => exact h

theorem sdk_handleMessages_nodup (opts : SpawnOpts) (u : Nat)
    (msgs : List ClaudeSdk.SDKMessage) : ∀ st : ClaudeSdk.SdkSt,
    NodupKeys st.reg → NodupKeys (ClaudeSdk.handleMessages opts u st msgs).1.reg := by
  induction msgs with
  | nil => intro st h; exact h
  | cons m ms ih =>
    intro st h
    have h1 := sdk_handleMessage_nodup opts u st m h
    rcases hme : ClaudeSdk.handleMessage opts u st m with ⟨st1, e1, a1⟩
    rw [hme] at h1
    have h2 := ih st1 h1
    rcases hms : ClaudeSdk.handleMessages opts u st1 ms with ⟨st2, e2, a2⟩
    rw [hms] at h2
    simp only [ClaudeSdk.handleMessages, hme, hms]
    exact h2

theorem sdk_abortExisting_nodup (c : List Char) (reg0 : List (List Char × ClaudeSdk.ActiveSession))
    (h : NodupKeys reg0) : NodupKeys (ClaudeSdk.abortExisting c reg0).1 := by
  simp only [ClaudeSdk.abortExisting]
  cases hg : mapGet c reg0 with
  | none => exact h
  | some e => exact nodupKeys_mapDel _ _ h

theorem sdk_startClaudeSession_nodup (opts : SpawnOpts) (u : Nat)
    (reg0 : List (List Char × ClaudeSdk.ActiveSession)) (n0 : Nat)
    (msgs : List ClaudeSdk.SDKMessage) (outcome : ClaudeSdk.SdkOutcome) (h : NodupKeys reg0) :
    NodupKeys (ClaudeSdk.startClaudeSession opts u reg0 n0 msgs outcome).reg := by
  have h1 := sdk_abortExisting_nodup (ClaudeSdk.jsOrGen opts.sessionId n0).1 reg0 h
  have h2 : NodupKeys (mapSet (ClaudeSdk.jsOrGen opts.sessionId n0).1
      ⟨u, (ClaudeSdk.jsOrGen opts.sessionId n0).1⟩
      (ClaudeSdk.abortExisting (ClaudeSdk.jsOrGen opts.sessionId n0).1 reg0).1) :=
    nodupKeys_mapSet _ _ _ h1
  have h3 := sdk_handleMessages_nodup opts u msgs
    ⟨(ClaudeSdk.jsOrGen opts.sessionId n0).1, (ClaudeSdk.jsOrGen opts.sessionId n0).2, false, false,
      mapSet (ClaudeSdk.jsOrGen opts.sessionId n0).1 ⟨u, (ClaudeSdk.jsOrGen opts.sessionId n0).1⟩
        (ClaudeSdk.abortExisting (ClaudeSdk.jsOrGen opts.sessionId n0).1 reg0).1⟩ h2
  cases outcome with
  | launchError msg => exact nodupKeys_mapDel _ _ h1
  | ok => exact nodupKeys_mapDel _ _ h3
  | innerError a msg => exact nodupKeys_mapDel _ _ h3

theorem cli_start_kills_existing (opts : SpawnOpts) (u : Nat)
    (reg0 : List (JsonVal × ClaudeCli.ActiveProcess)) (evs : List ClaudeCli.CliEvent)
    (term : ClaudeCli.CliTerm) (s : List Char) (old : ClaudeCli.ActiveProcess)
    (hs : opts.sessionId = some s) (ht : jsStrTruthy s = true)
    (hg : mapGet (JsonVal.str s) reg0 = some old) :
    ∃ rest, (ClaudeCli.spawnClaude opts u reg0 evs term).acts
      = Act.killUnit old.unit :: Act.regDelCli (JsonVal.str s) :: rest := by
  have ht' : jsTruthy (JsonVal.str s) = true := ht
  have hke : ClaudeCli.killExisting (opts.sessionId.map JsonVal.str) reg0
      = (mapDel (JsonVal.str s) reg0,
         [Act.killUnit old.unit, Act.regDelCli (JsonVal.str s)]) := by
    simp [ClaudeCli.killExisting, hs, ht', hg]
  cases term with
  | closed code =>
    refine ⟨(ClaudeCli.spawnClaude opts u reg0 evs (.closed code)).acts.drop 2, ?_⟩
    simp only [ClaudeCli.spawnClaude, hke]
    rfl
  | spawnErr enoent m code =>
    refine ⟨(ClaudeCli.spawnClaude opts u reg0 evs (.spawnErr enoent m code)).acts.drop 2, ?_⟩
    simp only [ClaudeCli.spawnClaude, hke]
    rfl

theorem sdk_start_aborts_existing (opts : SpawnOpts) (u : Nat)
    (reg0s : List (List Char × ClaudeSdk.ActiveSession)) (n0 : Nat)
    (msgs : List ClaudeSdk.SDKMessage) (old : ClaudeSdk.ActiveSession)
    (hg : mapGet (ClaudeSdk.jsOrGen opts.sessionId n0).1 reg0s = some old) :
    ∃ rest, (ClaudeSdk.startClaudeSession opts u reg0s n0 msgs .ok).acts
      = Act.abortUnit old.unit
        :: Act.regDelSdk (ClaudeSdk.jsOrGen opts.sessionId n0).1
        :: Act.regSetSdk (ClaudeSdk.jsOrGen opts.sessionId n0).1 u :: rest := by
  have hae : ClaudeSdk.abortExisting (ClaudeSdk.jsOrGen opts.sessionId n0).1 reg0s
      = (mapDel (ClaudeSdk.jsOrGen opts.sessionId n0).1 reg0s,
         [Act.abortUnit old.unit, Act.regDelSdk (ClaudeSdk.jsOrGen opts.sessionId n0).1]) := by
    simp [ClaudeSdk.abortExisting, hg]
  refine ⟨(ClaudeSdk.startClaudeSession opts u reg0s n0 msgs .ok).acts.drop 3, ?_⟩
  simp only [ClaudeSdk.startClaudeSession, hae]
  rfl

/-- C4: the two session registries are JavaScript `Map`s — each id maps to at
most one Unit, which for the association-list model is the key-uniqueness
invariant, preserved by every run from any well-formed registry — and a start
request for an id that already has a live Unit first cancels it (kill in
subprocess mode, abort in SDK mode) and deregisters it, strictly before any
registration performed by the new run: the run's action trace begins with the
kill/abort of the old unit followed by its deregistration (and in SDK mode
the new Unit's registration comes immediately after). -/
theorem C4_at_most_one_live_unit :
    ∀ (opts : SpawnOpts) (u : Nat) (reg0 : List (JsonVal × ClaudeCli.ActiveProcess))
      (evs : List ClaudeCli.CliEvent) (term : ClaudeCli.CliTerm) (s : List Char)
      (old : ClaudeCli.ActiveProcess) (reg0s : List (List Char × ClaudeSdk.ActiveSession))
      (n0 : Nat) (msgs : List ClaudeSdk.SDKMessage) (outcome : ClaudeSdk.SdkOutcome)
      (olds : ClaudeSdk.ActiveSession),
      (NodupKeys reg0 → NodupKeys (ClaudeCli.spawnClaude opts u reg0 evs term).reg)
      ∧ (opts.sessionId = some s → jsStrTruthy s = true →
          mapGet (JsonVal.str s) reg0 = some old →
          ∃ rest, (ClaudeCli.spawnClaude opts u reg0 evs term).acts
            = Act.killUnit old.unit :: Act.regDelCli (JsonVal.str s) :: rest)
      ∧ (NodupKeys reg0s →
          NodupKeys (ClaudeSdk.startClaudeSession opts u reg0s n0 msgs outcome).reg)
      ∧ (mapGet (ClaudeSdk.jsOrGen opts.sessionId n0).1 reg0s = some olds →
          ∃ rest, (ClaudeSdk.startClaudeSession opts u reg0s n0 msgs .ok).acts
            = Act.abortUnit olds.unit
              :: Act.regDelSdk (ClaudeSdk.jsOrGen opts.sessionId n0).1
              :: Act.regSetSdk (ClaudeSdk.jsOrGen opts.sessionId n0).1 u :: rest) := by
  intro opts u reg0 evs term s old reg0s n0 msgs outcome olds
  exact ⟨cli_spawnClaude_nodup opts u reg0 evs term,
    fun hs ht hg => cli_start_kills_existing opts u reg0 evs term s old hs ht hg,
    sdk_startClaudeSession_nodup opts u reg0s n0 msgs outcome,
    fun hg => sdk_start_aborts_existing opts u reg0s n0 msgs olds hg⟩

/-- Witness for C4: a start request for session `"s"` (subprocess mode, unit
9 already registered) and for session `"t"` (SDK mode, unit 4 already
registered) kills/aborts and deregisters the old unit first. -/
theorem C4_at_most_one_live_unit_witness :
    NodupKeys [(JsonVal.str (lc "s"), (⟨9, JsonVal.str (lc "s")⟩ : ClaudeCli.ActiveProcess))]
    ∧ NodupKeys
        (ClaudeCli.spawnClaude ⟨some (lc "s"), lc "go", []⟩ 3
          [(JsonVal.str (lc "s"), ⟨9, JsonVal.str (lc "s")⟩)] [] (.closed (some 0))).reg
    ∧ (∃ rest, (ClaudeCli.spawnClaude ⟨some (lc "s"), lc "go", []⟩ 3
          [(JsonVal.str (lc "s"), ⟨9, JsonVal.str (lc "s")⟩)] [] (.closed (some 0))).acts
        = Act.killUnit 9 :: Act.regDelCli (JsonVal.str (lc "s")) :: rest)
    ∧ (∃ rest, (ClaudeSdk.startClaudeSession ⟨some (lc "t"), lc "go", []⟩ 3
          [(lc "t", ⟨4, lc "t"⟩)] 0 [] .ok).acts
        = Act.abortUnit 4 :: Act.regDelSdk (ClaudeSdk.jsOrGen (some (lc "t")) 0).1
          :: Act.regSetSdk (ClaudeSdk.jsOrGen (some (lc "t")) 0).1 3 :: rest) :=
  ⟨by simp [NodupKeys],
   (C4_at_most_one_live_unit ⟨some (lc "s"), lc "go", []⟩ 3
      [(JsonVal.str (lc "s"), ⟨9, JsonVal.str (lc "s")⟩)] [] (.closed (some 0)) (lc "s")
      ⟨9, JsonVal.str (lc "s")⟩ [] 0 [] .ok ⟨4, lc "t"⟩).1 (by simp [NodupKeys]),
   (C4_at_most_one_live_unit ⟨some (lc "s"), lc "go", []⟩ 3
      [(JsonVal.str (lc "s"), ⟨9, JsonVal.str (lc "s")⟩)] [] (.closed (some 0)) (lc "s")
      ⟨9, JsonVal.str (lc "s")⟩ [] 0 [] .ok ⟨4, lc "t"⟩).2.1 rfl (by decide) (by decide),
   (C4_at_most_one_live_unit ⟨some (lc "t"), lc "go", []⟩ 3 [] [] (.closed (some 0)) (lc "t")
      ⟨9, JsonVal.str (lc "t")⟩ [(lc "t", ⟨4, lc "t"⟩)] 0 [] .ok ⟨4, lc "t"⟩).2.2.2
     (by decide)⟩

theorem cli_handleMsg_capture_inv (u : Nat) (st : ClaudeCli.CliSt) (m : Msg)
    (h1 : st.captured = none → st.reg = [])
    (h2 : st.captured = none ∨ ∃ sid, st.captured = some sid ∧ jsTruthy sid = true) :
    ((ClaudeCli.handleMsg u st m).1.captured = none → (ClaudeCli.handleMsg u st m).1.reg = [])
    ∧ ((ClaudeCli.handleMsg u st m).1.captured = none
       ∨ ∃ sid, (ClaudeCli.handleMsg u st m).1.captured = some sid ∧ jsTruthy sid = true) := by
  cases m with
  | raw l => exact ⟨h1, h2⟩
  | parsed v =>
    simp only [ClaudeCli.handleMsg]
    cases hf : jsGetField v (lc "session_id") with
    | none => exact ⟨h1, h2⟩
    | some sid =>
      by_cases hc : (jsTruthy sid && !(jsOptTruthy st.captured)) = true
      · have ht : jsTruthy sid = true := by
          rcases Bool.and_eq_true_iff.mp hc with ⟨ht, _⟩
          exact ht
        by_cases hs : st.scSent <;>
          simp [hc, hs] <;>
          exact ht
      · simp only [hc, if_false]
        exact ⟨h1, h2⟩

theorem cli_handleMsgs_capture_inv (u : Nat) (msgs : List Msg) : ∀ st : ClaudeCli.CliSt,
    (st.captured = none → st.reg = []) →
    (st.captured = none ∨ ∃ sid, st.captured = some sid ∧ jsTruthy sid = true) →
    ((ClaudeCli.handleMsgs u st msgs).1.captured = none →
      (ClaudeCli.handleMsgs u st msgs).1.reg = [])
    ∧ ((ClaudeCli.handleMsgs u st msgs).1.captured = none
       ∨ ∃ sid, (ClaudeCli.handleMsgs u st msgs).1.captured = some sid
           ∧ jsTruthy sid = true) := by
  induction msgs with
  | nil => intro st h1 h2; exact ⟨h1, h2⟩
  | cons m ms ih =>
    intro st h1 h2
    have hstep := cli_handleMsg_capture_inv u st m h1 h2
    rcases hme : ClaudeCli.handleMsg u st m with ⟨st1, e1, a1⟩
    rw [hme] at hstep
    have hrec := ih st1 hstep.1 hstep.2
    rcases hms : ClaudeCli.handleMsgs u st1 ms with ⟨st2, e2, a2⟩
    rw [hms] at hrec
    simp only [ClaudeCli.handleMsgs, hme, hms]
    exact hrec

theorem cli_procEvents_capture_inv (u : Nat) (evs : List ClaudeCli.CliEvent) :
    ∀ st : ClaudeCli.CliSt,
    (st.captured = none → st.reg = []) →
    (st.captured = none ∨ ∃ sid, st.captured = some sid ∧ jsTruthy sid = true) →
    ((ClaudeCli.procEvents u st evs).1.captured = none →
      (ClaudeCli.procEvents u st evs).1.reg = [])
    ∧ ((ClaudeCli.procEvents u st evs).1.captured = none
       ∨ ∃ sid, (ClaudeCli.procEvents u st evs).1.captured = some sid
           ∧ jsTruthy sid = true) := by
  induction evs with
  | nil => intro st h1 h2; exact ⟨h1, h2⟩
  | cons ev evs ih =>
    intro st h1 h2
    cases ev with
    | stdoutData c =>
      rcases hd : decodeStep st.buf c with ⟨msgs, buf1⟩
      have hstep := cli_handleMsgs_capture_inv u msgs { st with buf := buf1 }
        (by simpa using h1) (by simpa using h2)
      rcases hms : ClaudeCli.handleMsgs u { st with buf := buf1 } msgs with ⟨st1, e1, a1⟩
      rw [hms] at hstep
      have hrec := ih st1 hstep.1 hstep.2
      rcases hpe : ClaudeCli.procEvents u st1 evs with ⟨st2, e2, d2, a2⟩
      rw [hpe] at hrec
      simp only [ClaudeCli.procEvents, ClaudeCli.onStdoutData, hd, hms, hpe]
      exact hrec
    | stderrData m =>
      have hrec := ih st h1 h2
      rcases hpe : ClaudeCli.procEvents u st evs with ⟨st2, e2, d2, a2⟩
      rw [hpe] at hrec
      simp only [ClaudeCli.procEvents, hpe]
      exact hrec

/-- C10: in subprocess mode, starting with no caller-supplied session id and
an empty registry, the Unit stays unregistered until a decoded stdout message
carrying a truthy `session_id` is captured: while nothing has been captured
the registry is empty and `abortClaudeSession` returns `false` for every id —
the running process cannot be cancelled through the registry — and any
nonempty registry implies a truthy session id was captured first. -/
theorem C10_unregistered_until_capture :
    ∀ (u : Nat) (evs : List ClaudeCli.CliEvent),
    ((ClaudeCli.procEvents u ⟨none, false, [], []⟩ evs).1.captured = none →
       (ClaudeCli.procEvents u ⟨none, false, [], []⟩ evs).1.reg = []
       ∧ ∀ id, (ClaudeCli.abortClaudeSession id
            (ClaudeCli.procEvents u ⟨none, false, [], []⟩ evs).1.reg).1 = false)
    ∧ ((ClaudeCli.procEvents u ⟨none, false, [], []⟩ evs).1.reg ≠ [] →
        ∃ sid, (ClaudeCli.procEvents u ⟨none, false, [], []⟩ evs).1.captured = some sid
          ∧ jsTruthy sid = true) := by
  intro u evs
  have hinv := cli_procEvents_capture_inv u evs ⟨none, false, [], []⟩
    (fun _ => rfl) (Or.inl rfl)
  constructor
  · intro hnone
    have hreg := hinv.1 hnone
    refine ⟨hreg, fun id => ?_⟩
    rw [hreg]
    rfl
  · intro hne
    rcases hinv.2 with hc | hc
    · exact absurd (hinv.1 hc) hne
    · exact hc

/-- Witness for C10: with no session id captured yet (a parsed message with
no `session_id` field) the registry is empty and abort misses for id `"x"`;
after a chunk carrying `session_id` `"s1"` the registry is nonempty and a
truthy id was captured. -/
theorem C10_unregistered_until_capture_witness :
    ((ClaudeCli.procEvents 3 ⟨none, false, [], []⟩
        [ClaudeCli.CliEvent.stdoutData (lc "\x7b\"a\":1\x7d\n")]).1.reg = []
      ∧ ∀ id, (ClaudeCli.abortClaudeSession id
          (ClaudeCli.procEvents 3 ⟨none, false, [], []⟩
            [ClaudeCli.CliEvent.stdoutData (lc "\x7b\"a\":1\x7d\n")]).1.reg).1 = false)
    ∧ (∃ sid, (ClaudeCli.procEvents 3 ⟨none, false, [], []⟩
          [ClaudeCli.CliEvent.stdoutData (lc "\x7b\"session_id\":\"s1\"\x7d\n")]).1.captured
            = some sid ∧ jsTruthy sid = true) :=
  ⟨(C10_unregistered_until_capture 3
      [ClaudeCli.CliEvent.stdoutData (lc "\x7b\"a\":1\x7d\n")]).1 (by decide),
   (C10_unregistered_until_capture 3
      [ClaudeCli.CliEvent.stdoutData (lc "\x7b\"session_id\":\"s1\"\x7d\n")]).2 (by decide)⟩

theorem splitOnCh_ne_nil (sep : Char) (s : List Char) : splitOnCh sep s ≠ [] := by
  cases s with
  | nil => simp [splitOnCh]
  | cons c cs =>
    simp only [splitOnCh]
    by_cases h : c = sep
    · simp [h]
    · simp only [h, if_false, ite_false]
      cases splitOnCh sep cs <;> simp

theorem splitOnCh_no_sep (sep : Char) (s : List Char) (h : ∀ c ∈ s, c ≠ sep) :
    splitOnCh sep s = [s] := by
  induction s with
  | nil => rfl
  | cons c cs ih =>
    have hc : c ≠ sep := h c (List.mem_cons_self c cs)
    have ih2 := ih (fun x hx => h x (List.mem_cons_of_mem c hx))
    simp only [splitOnCh, hc, if_false, ite_false, ih2]

theorem splitNl_cons_line (l r : List Char) (h : ∀ c ∈ l, c ≠ '\n') :
    splitNl (l ++ '\n' :: r) = l :: splitNl r := by
  induction l with
  | nil => simp [splitNl, splitOnCh]
  | cons c cs ih =>
    have hc : c ≠ '\n' := h c (List.mem_cons_self c cs)
    have ih2 := ih (fun x hx => h x (List.mem_cons_of_mem c hx))
    simp only [splitNl, List.cons_append, splitOnCh, hc, if_false, ite_false, List.append_eq]
    simp only [splitNl] at ih2
    rw [ih2]

theorem mem_splitOnCh_mem (sep : Char) (s : List Char) :
    ∀ l ∈ splitOnCh sep s, ∀ c ∈ l, c ∈ s ∧ c ≠ sep := by
  induction s with
  | nil =>
    intro l hl c hc
    simp [splitOnCh] at hl
    subst hl
    simp at hc
  | cons x xs ih =>
    intro l hl c hc
    simp only [splitOnCh] at hl
    by_cases hx : x = sep
    · simp only [hx, if_pos rfl] at hl
      rcases List.mem_cons.mp hl with hl | hl
      · subst hl; simp at hc
      · have := ih l hl c hc
        exact ⟨List.mem_cons_of_mem x this.1, this.2⟩
    · simp only [hx, if_false, ite_false] at hl
      rcases hsc : splitOnCh sep xs with _ | ⟨y, ys⟩
      · exact absurd hsc (splitOnCh_ne_nil sep xs)
      · rw [hsc] at hl
        rcases List.mem_cons.mp hl with hl | hl
        · subst hl
          rcases List.mem_cons.mp hc with hc | hc
          · subst hc; exact ⟨List.mem_cons_self c xs, hx⟩
          · have := ih y (by rw [hsc]; exact List.mem_cons_self y ys) c hc
            exact ⟨List.mem_cons_of_mem x this.1, this.2⟩
        · have := ih l (by rw [hsc]; exact List.mem_cons_of_mem y hl) c hc
          exact ⟨List.mem_cons_of_mem x this.1, this.2⟩

theorem getLastD_mem {α : Type} (S : List α) (d : α) (h : S ≠ []) : S.getLastD d ∈ S := by
  induction S generalizing d with
  | nil => exact absurd rfl h
  | cons x xs ih =>
    cases hxs : xs with
    | nil => subst hxs; simp [List.getLastD]
    | cons y ys =>
      subst hxs
      rw [List.getLastD_cons]
      exact List.mem_cons_of_mem x (ih x (by simp))

theorem eq_dropLast_append_getLastD {α : Type} (S : List α) (d : α) (h : S ≠ []) :
    S = S.dropLast ++ [S.getLastD d] := by
  induction S generalizing d with
  | nil => exact absurd rfl h
  | cons x xs ih =>
    cases hxs : xs with
    | nil => subst hxs; simp [List.getLastD]
    | cons y ys =>
      subst hxs
      rw [List.getLastD_cons, List.dropLast_cons₂, List.cons_append]
      exact congrArg (x :: ·) (ih x (by simp))

theorem splitOnCh_append (sep : Char) (a : List Char) : ∀ b : List Char,
    splitOnCh sep (a ++ b) = glueSplit (splitOnCh sep a) (splitOnCh sep b) := by
  induction a with
  | nil =>
    intro b
    rcases hb : splitOnCh sep b with _ | ⟨y, ys⟩
    · exact absurd hb (splitOnCh_ne_nil sep b)
    · simp [splitOnCh, glueSplit, hb, List.getLastD]
  | cons c cs ih =>
    intro b
    by_cases hc : c = sep
    · have hl : splitOnCh sep ((c :: cs) ++ b) = [] :: splitOnCh sep (cs ++ b) := by
        simp [splitOnCh, hc]
      have hl2 : splitOnCh sep (c :: cs) = [] :: splitOnCh sep cs := by
        simp [splitOnCh, hc]
      rw [hl, ih b, hl2]
      rcases hcs : splitOnCh sep cs with _ | ⟨y, ys⟩
      · exact absurd hcs (splitOnCh_ne_nil sep cs)
      · rcases hb : splitOnCh sep b with _ | ⟨z, zs⟩
        · exact absurd hb (splitOnCh_ne_nil sep b)
        · simp [glueSplit, List.getLastD_cons]
    · have hl : splitOnCh sep ((c :: cs) ++ b)
          = match splitOnCh sep (cs ++ b) with
            | [] => [[c]]
            | l :: ls => (c :: l) :: ls := by
        simp [splitOnCh, hc]
      rcases hcs : splitOnCh sep cs with _ | ⟨y, ys⟩
      · exact absurd hcs (splitOnCh_ne_nil sep cs)
      rcases hb : splitOnCh sep b with _ | ⟨z, zs⟩
      · exact absurd hb (splitOnCh_ne_nil sep b)
      have hl2 : splitOnCh sep (c :: cs) = (c :: y) :: ys := by
        simp [splitOnCh, hc, hcs]
      rw [hl, ih b, hcs, hb, hl2]
      cases ys with
      | nil => simp [glueSplit, List.getLastD]
      | cons y2 ys2 => simp [glueSplit, List.getLastD_cons]

theorem dropWhile_eq_self_of_all_false {α : Type} (p : α → Bool) (l : List α)
    (h : ∀ c ∈ l, p c = false) : l.dropWhile p = l := by
  cases l with
  | nil => rfl
  | cons x xs =>
    have hx := h x (List.mem_cons_self x xs)
    simp [List.dropWhile, hx]

theorem jsTrim_eq_self (l : List Char) (h : ∀ c ∈ l, isTrimWs c = false) : jsTrim l = l := by
  unfold jsTrim
  rw [dropWhile_eq_self_of_all_false isTrimWs l h,
    dropWhile_eq_self_of_all_false isTrimWs l.reverse (fun c hc => h c (List.mem_reverse.mp hc)),
    List.reverse_reverse]

theorem decodeStep_full_lines (ls : List (List Char)) (h : ∀ l ∈ ls, '\n' ∉ l) :
    decodeStep [] ((ls.map (fun l => l ++ ['\n'])).flatten) = (ls.filterMap classifyLine, []) := by
  induction ls with
  | nil => rfl
  | cons l ls ih =>
    have hl : ∀ c ∈ l, c ≠ '\n' := by
      intro c hc heq
      exact h l (List.mem_cons_self l ls) (heq ▸ hc)
    have hjoin : (((l :: ls).map (fun x => x ++ ['\n'])).flatten : List Char)
        = l ++ '\n' :: (ls.map (fun x => x ++ ['\n'])).flatten := by
      simp
    have hsplit := splitNl_cons_line l ((ls.map (fun x => x ++ ['\n'])).flatten) hl
    have ihv := ih (fun l2 hl2 => h l2 (List.mem_cons_of_mem l hl2))
    simp only [decodeStep, List.nil_append] at ihv ⊢
    rw [hjoin, hsplit]
    rcases hsj : splitNl ((ls.map (fun x => x ++ ['\n'])).flatten) with _ | ⟨y, ys⟩
    · exact absurd hsj (splitOnCh_ne_nil _ _)
    · rw [hsj] at ihv
      cases hcl : classifyLine l <;>
        simp [decodeLines, ihv, hcl, List.filterMap_cons]

/-- C7: a line of unit output that does not parse as JSON is classified as a
raw-unparsed message carrying the (trimmed) line; the raw message is surfaced
as a console diagnostic of the stdout handler; and it is not fatal — a batch
of complete lines decodes to the per-line classification of every line, so
decoding continues with the lines after the failing one. -/
theorem C7_raw_unparsed_not_fatal :
    ∀ (ls : List (List Char)) (l : List Char) (u : Nat) (st : ClaudeCli.CliSt)
      (chunk l2 : List Char),
      ((∀ l3 ∈ ls, '\n' ∉ l3) →
        decodeStep [] ((ls.map (fun l3 => l3 ++ ['\n'])).flatten)
          = (ls.filterMap classifyLine, []))
      ∧ (jsTrim l ≠ [] → jsonParse (jsTrim l) = none →
          classifyLine l = some (.raw (jsTrim l)))
      ∧ (Msg.raw l2 ∈ (decodeStep st.buf chunk).1 →
          Diag.rawUnparsed l2 ∈ (ClaudeCli.onStdoutData u st chunk).2.2.1) := by
  intro ls l u st chunk l2
  refine ⟨fun h => decodeStep_full_lines ls h, fun ht hp => ?_, fun hm => ?_⟩
  · simp [classifyLine, ht, hp]
  · rcases hd : decodeStep st.buf chunk with ⟨msgs, buf1⟩
    rw [hd] at hm
    rcases hms : ClaudeCli.handleMsgs u { st with buf := buf1 } msgs with ⟨st1, e1, a1⟩
    simp only [ClaudeCli.onStdoutData, hd, hms, ClaudeCli.diagsOf]
    exact List.mem_filterMap.mpr ⟨Msg.raw l2, hm, rfl⟩

/-- Witness for C7 on the batch `{"a":1}` / `oops` / `true`: the malformed
middle line is classified raw and decoding still yields the classification of
all three lines in order. -/
theorem C7_raw_unparsed_not_fatal_witness :
    decodeStep []
        (([lc "\x7b\"a\":1\x7d", lc "oops", lc "true"].map (fun l3 => l3 ++ ['\n'])).flatten)
      = ([lc "\x7b\"a\":1\x7d", lc "oops", lc "true"].filterMap classifyLine, [])
    ∧ classifyLine (lc "oops") = some (.raw (jsTrim (lc "oops")))
    ∧ Diag.rawUnparsed (lc "oops")
        ∈ (ClaudeCli.onStdoutData 3 ⟨none, false, [], []⟩ (lc "oops\n")).2.2.1 :=
  ⟨(C7_raw_unparsed_not_fatal [lc "\x7b\"a\":1\x7d", lc "oops", lc "true"] (lc "oops") 3
      ⟨none, false, [], []⟩ (lc "oops\n") (lc "oops")).1 (by decide),
   (C7_raw_unparsed_not_fatal [lc "\x7b\"a\":1\x7d", lc "oops", lc "true"] (lc "oops") 3
      ⟨none, false, [], []⟩ (lc "oops\n") (lc "oops")).2.1 (by decide) (by decide),
   (C7_raw_unparsed_not_fatal [lc "\x7b\"a\":1\x7d", lc "oops", lc "true"] (lc "oops") 3
      ⟨none, false, [], []⟩ (lc "oops\n") (lc "oops")).2.2 (by decide)⟩

theorem decodeLines_append (xs : List (List Char)) : ∀ ys : List (List Char), ys ≠ [] →
    decodeLines (xs ++ ys)
      = (xs.filterMap classifyLine ++ (decodeLines ys).1, (decodeLines ys).2) := by
  induction xs with
  | nil => intro ys hys; simp
  | cons x xs ih =>
    intro ys hys
    rcases h2 : xs ++ ys with _ | ⟨y, ys2⟩
    · exact absurd h2 (List.append_ne_nil_of_right_ne_nil xs hys)
    · have ihv := ih ys hys
      rw [h2] at ihv
      simp only [List.cons_append, h2]
      cases hcl : classifyLine x <;>
        simp [decodeLines, ihv, hcl, List.filterMap_cons]

theorem splitNl_append (a b : List Char) :
    splitNl (a ++ b) = glueSplit (splitNl a) (splitNl b) :=
  splitOnCh_append '\n' a b

theorem decodeStep_comp (buf c1 c2 : List Char)
    (hnows : NoWsExceptNl (buf ++ c1)) :
    decodeStep buf (c1 ++ c2)
        = ((decodeStep buf c1).1 ++ (decodeStep (decodeStep buf c1).2 c2).1,
           (decodeStep (decodeStep buf c1).2 c2).2)
      ∧ (∀ c ∈ (decodeStep buf c1).2, isTrimWs c = false) := by
  have hS := splitOnCh_ne_nil '\n' (buf ++ c1)
  have hfmem := getLastD_mem (splitNl (buf ++ c1)) [] hS
  have hfchars := mem_splitOnCh_mem '\n' (buf ++ c1) _ hfmem
  have hfok : ∀ c ∈ (splitNl (buf ++ c1)).getLastD [], isTrimWs c = false := by
    intro c hc
    rcases hfchars c hc with ⟨hin, hne⟩
    by_cases hw : isTrimWs c = true
    · exact absurd (hnows c hin hw) hne
    · exact Bool.not_eq_true _ ▸ hw
  have htrimf := jsTrim_eq_self _ hfok
  have hfnl : ∀ c ∈ (splitNl (buf ++ c1)).getLastD [], c ≠ '\n' :=
    fun c hc => (hfchars c hc).2
  have hsplitf : splitNl ((splitNl (buf ++ c1)).getLastD []) =
      [(splitNl (buf ++ c1)).getLastD []] := splitOnCh_no_sep '\n' _ hfnl
  have hd1 : decodeStep buf c1
      = ((splitNl (buf ++ c1)).dropLast.filterMap classifyLine,
         (splitNl (buf ++ c1)).getLastD []) := by
    have hdec := eq_dropLast_append_getLastD (splitNl (buf ++ c1)) [] hS
    calc decodeStep buf c1 = decodeLines (splitNl (buf ++ c1)) := rfl
      _ = decodeLines ((splitNl (buf ++ c1)).dropLast ++ [(splitNl (buf ++ c1)).getLastD []]) := by
          rw [← hdec]
      _ = ((splitNl (buf ++ c1)).dropLast.filterMap classifyLine
            ++ (decodeLines [(splitNl (buf ++ c1)).getLastD []]).1,
           (decodeLines [(splitNl (buf ++ c1)).getLastD []]).2) :=
          decodeLines_append _ _ (by simp)
      _ = ((splitNl (buf ++ c1)).dropLast.filterMap classifyLine,
           (splitNl (buf ++ c1)).getLastD []) := by
          simp only [decodeLines]
          rw [htrimf]
          simp
  refine ⟨?_, by rw [hd1]; exact hfok⟩
  have hglueS : glueSplit (splitNl (buf ++ c1)) (splitNl c2)
      = (splitNl (buf ++ c1)).dropLast
        ++ glueSplit [(splitNl (buf ++ c1)).getLastD []] (splitNl c2) := by
    rcases ht : splitNl c2 with _ | ⟨z, zs⟩
    · exact absurd ht (splitOnCh_ne_nil '\n' c2)
    · simp [glueSplit, List.getLastD]
  have hglue_ne : glueSplit [(splitNl (buf ++ c1)).getLastD []] (splitNl c2) ≠ [] := by
    rcases ht : splitNl c2 with _ | ⟨z, zs⟩
    · exact absurd ht (splitOnCh_ne_nil '\n' c2)
    · simp [glueSplit, List.getLastD]
  have hstep2 : decodeStep (decodeStep buf c1).2 c2
      = decodeLines (glueSplit [(splitNl (buf ++ c1)).getLastD []] (splitNl c2)) := by
    rw [hd1]
    show decodeLines (splitNl ((splitNl (buf ++ c1)).getLastD [] ++ c2)) = _
    rw [splitNl_append ((splitNl (buf ++ c1)).getLastD []) c2, hsplitf]
  calc decodeStep buf (c1 ++ c2)
      = decodeLines (splitNl ((buf ++ c1) ++ c2)) := by
        rw [decodeStep, List.append_assoc]
    _ = decodeLines (glueSplit (splitNl (buf ++ c1)) (splitNl c2)) := by
        rw [splitNl_append (buf ++ c1) c2]
    _ = decodeLines ((splitNl (buf ++ c1)).dropLast
          ++ glueSplit [(splitNl (buf ++ c1)).getLastD []] (splitNl c2)) := by
        rw [hglueS]
    _ = ((splitNl (buf ++ c1)).dropLast.filterMap classifyLine
          ++ (decodeLines (glueSplit [(splitNl (buf ++ c1)).getLastD []] (splitNl c2))).1,
         (decodeLines (glueSplit [(splitNl (buf ++ c1)).getLastD []] (splitNl c2))).2) :=
        decodeLines_append _ _ hglue_ne
    _ = ((decodeStep buf c1).1 ++ (decodeStep (decodeStep buf c1).2 c2).1,
         (decodeStep (decodeStep buf c1).2 c2).2) := by
        rw [hstep2, hd1]

theorem decodeChunks_eq_single (cs : List (List Char)) : ∀ buf : List Char,
    (∀ c ∈ buf, isTrimWs c = false) → NoWsExceptNl (buf ++ cs.flatten) →
    decodeChunksFrom buf cs = decodeStep buf cs.flatten := by
  induction cs with
  | nil =>
    intro buf hbuf hnows
    have hnl : ∀ c ∈ buf, c ≠ '\n' := by
      intro c hc heq
      subst heq
      have hw : isTrimWs '\n' = true := by decide
      rw [hbuf '\n' hc] at hw
      cases hw
    have hsp : splitNl buf = [buf] := splitOnCh_no_sep '\n' buf hnl
    have htr := jsTrim_eq_self buf hbuf
    show ([], buf) = decodeLines (splitNl (buf ++ []))
    rw [List.append_nil, hsp]
    simp [decodeLines, htr]
  | cons c cs ih =>
    intro buf hbuf hnows
    have hnows' : NoWsExceptNl ((buf ++ c) ++ cs.flatten) := by
      intro x hx hw
      refine hnows x ?_ hw
      rw [List.flatten_cons, ← List.append_assoc]
      exact hx
    have hnows1 : NoWsExceptNl (buf ++ c) :=
      fun x hx hw => hnows' x (List.mem_append_left _ hx) hw
    have comp := decodeStep_comp buf c cs.flatten hnows1
    rcases hd : decodeStep buf c with ⟨m1, b1⟩
    rw [hd] at comp
    have hb1 : ∀ x ∈ b1, isTrimWs x = false := comp.2
    have hnows2 : NoWsExceptNl (b1 ++ cs.flatten) := by
      intro x hx hw
      rcases List.mem_append.mp hx with hxb | hxf
      · rw [hb1 x hxb] at hw
        cases hw
      · exact hnows' x (List.mem_append_right _ hxf) hw
    have ihv := ih b1 hb1 hnows2
    rcases hrest : decodeChunksFrom b1 cs with ⟨m2, b2⟩
    rw [hrest] at ihv
    show decodeChunksFrom buf (c :: cs) = decodeStep buf (c :: cs).flatten
    rw [List.flatten_cons]
    simp only [decodeChunksFrom, hd, hrest]
    rw [comp.1, ← ihv]

/-- C3 (counterexample to the claim as stated): the stream `1 2\n` delivered
as the two chunks `1 ` and `2\n` decodes to one parsed JSON number `12`,
while delivered as a single chunk it decodes to one raw-unparsed line
`1 2` — the held-back partial line is trimmed, not carried over unchanged,
which merges the two tokens. -/
theorem C3_chunk_invariance_counterexample :
    decodeChunksFrom [] [lc "1 ", lc "2\n"] ≠ decodeChunksFrom [] [lc "1 2\n"]
    ∧ (decodeStep [] (lc "1 ")).2 ≠ lc "1 " := by
  constructor
  · intro h
    have h1 : countRawMsgs (decodeChunksFrom [] [lc "1 ", lc "2\n"]).1 = 0 := by decide
    have h2 : countRawMsgs (decodeChunksFrom [] [lc "1 2\n"]).1 = 1 := by decide
    rw [h] at h1
    rw [h1] at h2
    cases h2
  · decide

/-- C3 (amended): the round-trip holds on the whitespace-restricted stream
alphabet: whenever every trimmable whitespace character of the byte stream is
the newline separator itself, delivering the stream as any sequence of chunks
yields exactly the messages (and final held buffer) of single-chunk delivery.
In general the trailing partial line is carried over trimmed — not
unchanged — so a chunk boundary adjacent to whitespace inside a line can
change the decoded messages (see the counterexample). -/
theorem C3_chunk_invariance_amended :
    ∀ cs : List (List Char), NoWsExceptNl cs.flatten →
      decodeChunksFrom [] cs = decodeStep [] cs.flatten := by
  intro cs h
  exact decodeChunks_eq_single cs [] (by intro c hc; cases hc) (by simpa using h)

/-- Witness for C3 on the batch `{"a":1}\n{"b":2}\n` split at an arbitrary
byte boundary inside the first object. -/
theorem C3_chunk_invariance_amended_witness :
    decodeChunksFrom [] [lc "\x7b\"a\"", lc ":1\x7d\n\x7b\"b\":2\x7d\n"]
      = decodeStep [] ([lc "\x7b\"a\"", lc ":1\x7d\n\x7b\"b\":2\x7d\n"] : List (List Char)).flatten :=
  C3_chunk_invariance_amended [lc "\x7b\"a\"", lc ":1\x7d\n\x7b\"b\":2\x7d\n"]
    (by unfold NoWsExceptNl; decide)
